import Mathlib

/-
Verification development for the lowkeydb embeddable transactional
key-value store.  The repository ships the C binding header
(src/include/lowkeydb.h) declaring the boundary surface: lifecycle,
CRUD, transactions with three isolation levels, WAL checkpointing,
statistics, and a fixed numeric error taxonomy.  The engine behind the
header is specified in spec.md; where the engine's code is not in the
repository, the definitions below are modelled from the spec (each such
definition says so in its doc comment).  Signatures, error-code values
and isolation-level values are taken from the header itself.
-/

namespace Lowkeydb

/-- Keys are opaque byte strings (spec section 4.5); a byte is modelled
as a natural number. -/
abbrev Key := List Nat

/-- Values are opaque byte strings (spec section 4.5). -/
abbrev Val := List Nat

/-- A committed key-value store: each key maps to its live value, or to
none when absent. -/
abbrev Store := Key → Option Val

/-- Error taxonomy from src/include/lowkeydb.h lines 15-22 (the
non-success codes; success is the separate code 0). -/
inductive LowkeyErr where
  | invalidParam
  | memoryErr
  | ioErr
  | keyNotFound
  | transactionConflict
  | invalidTransaction
  | genericErr
  deriving DecidableEq, Repr

/-- Numeric value of each error code, transcribed from the defines in
src/include/lowkeydb.h lines 16-22. -/
def errCode : LowkeyErr → Int
  | .invalidParam => -1
  | .memoryErr => -2
  | .ioErr => -3
  | .keyNotFound => -4
  | .transactionConflict => -5
  | .invalidTransaction => -6
  | .genericErr => -100

/-- LOWKEY_OK, src/include/lowkeydb.h line 15. -/
def LOWKEY_OK : Int := 0

/-- The complete list of numeric codes surfaced at the boundary:
the success code followed by every error code. -/
def boundaryCodes : List Int :=
  LOWKEY_OK ::
    [LowkeyErr.invalidParam, LowkeyErr.memoryErr, LowkeyErr.ioErr,
     LowkeyErr.keyNotFound, LowkeyErr.transactionConflict,
     LowkeyErr.invalidTransaction, LowkeyErr.genericErr].map errCode

/-- Modelled from the spec: `lowkeydb_error_message` (header line 82) is
missing from the repository; spec section 6 says each numeric code has a
fixed human-readable message.  The message table below is the model. -/
def lowkeydb_error_message : Int → List Char
  | 0 => "Success".data
  | -1 => "Invalid parameter".data
  | -2 => "Out of memory".data
  | -3 => "I/O error".data
  | -4 => "Key not found".data
  | -5 => "Transaction conflict".data
  | -6 => "Invalid transaction".data
  | _ => "Generic error".data

/-- A call of the message function at call number n: the model of
repeated calls.  The result ignores the call number because the message
table is fixed. -/
def errorMessageAt (code : Int) (callNo : Nat) : List Char :=
  let _ := callNo
  lowkeydb_error_message code

/-- Isolation levels, numeric values from src/include/lowkeydb.h
lines 25-27. -/
inductive Iso where
  | readCommitted
  | repeatableRead
  | serializable
  deriving DecidableEq, Repr

/-- Numeric value of each isolation level (header lines 25-27). -/
def isoLevel : Iso → Int
  | .readCommitted => 0
  | .repeatableRead => 1
  | .serializable => 2

/-- Transaction status, spec section 4.4: Active, Committed, RolledBack,
Conflicted. -/
inductive TxStatus where
  | active
  | committed
  | rolledBack
  | conflicted
  deriving DecidableEq, Repr

/-- Modelled from the spec: the Transaction Manager's per-transaction
record (spec sections 3 and 4.4) — isolation level, status, begin
timestamp, the snapshot taken at begin, the read set, and the buffered
write set (a none value is a delete tombstone; the write set is kept in
the order applied). -/
structure Tx where
  iso : Iso
  status : TxStatus
  beginTime : Nat
  snapshot : Store
  readSet : List Key
  writeSet : List (Key × Option Val)

/-- Modelled from the spec: WAL record kinds, spec section 3
(begin / put / delete / commit / rollback / checkpoint-marker). -/
inductive WalRecord where
  | beginR (t : Nat)
  | putR (t : Nat) (k : Key) (v : Val)
  | delR (t : Nat) (k : Key)
  | commitR (t : Nat)
  | rollbackR (t : Nat)
  | checkpointR
  deriving DecidableEq, Repr

/-- Checkpoint policy configuration, mirroring the parameters of
lowkeydb_configure_checkpointing (header line 72). -/
structure CkptConfig where
  interval_ms : Nat
  max_wal_size_mb : Nat
  max_archived_wals : Nat
  deriving DecidableEq, Repr

/-- Modelled from the spec: the state of one open database instance
(spec sections 2, 3 and 9).  `committed` is the committed key-value
view served by the Buffer Pool; `dataFile` is the on-disk page store as
of the last checkpoint; `wal` is the append-only record stream;
`lastCommit` maps each key to the logical time of the last committed
write to it (used for first-committer-wins validation); `liveKeys`
tracks the live key list behind key_count. -/
structure DBState where
  committed : Store
  txs : Nat → Option Tx
  nextTx : Nat
  clock : Nat
  lastCommit : Key → Nat
  dataFile : Store
  wal : List WalRecord
  liveKeys : List Key
  ckptPerformed : Nat
  archivedWals : Nat
  config : CkptConfig
  autoCkpt : Bool

/-- The state of a freshly created, empty database. -/
def initState : DBState where
  committed := fun _ => none
  txs := fun _ => none
  nextTx := 0
  clock := 1
  lastCommit := fun _ => 0
  dataFile := fun _ => none
  wal := []
  liveKeys := []
  ckptPerformed := 0
  archivedWals := 0
  config := ⟨3600000, 64, 4⟩
  autoCkpt := false

/-- Point update of the transaction table. -/
def updTx (f : Nat → Option Tx) (t : Nat) (v : Option Tx) : Nat → Option Tx :=
  fun n => if n = t then v else f n

/-- Last buffered write of a key in a write set (the transaction-local
overlay of spec section 9), if any. -/
def overlayLookup (ws : List (Key × Option Val)) (k : Key) : Option (Option Val) :=
  ws.foldl (fun acc kv => if kv.1 = k then some kv.2 else acc) none

/-- Apply a buffered write set to a store, in order. -/
def applyWrites (s : Store) (ws : List (Key × Option Val)) : Store :=
  ws.foldl (fun st kv => fun k => if k = kv.1 then kv.2 else st k) s

/-- Record the commit time of every key a write set touches. -/
def bumpLast (lc : Key → Nat) (ws : List (Key × Option Val)) (time : Nat) : Key → Nat :=
  fun k => if ws.any (fun kv => kv.1 = k) then time else lc k

/-- Maintain the live-key list across a committed write set: inserts on
put of an absent key, removals on delete. -/
def updKeys (ks : List Key) (ws : List (Key × Option Val)) : List Key :=
  ws.foldl
    (fun acc kv =>
      match kv.2 with
      | some _ => if acc.contains kv.1 then acc else kv.1 :: acc
      | none => acc.filter (fun k2 => !(k2 == kv.1)))
    ks

/-- The WAL data records for a write set of transaction t, in the order
the writes were applied. -/
def walPutRecords (t : Nat) (ws : List (Key × Option Val)) : List WalRecord :=
  ws.map (fun kv =>
    match kv.2 with
    | some v => WalRecord.putR t kv.1 v
    | none => WalRecord.delR t kv.1)

/-- Modelled from the spec: `begin(isolation_level) -> tx_id` (spec
section 4.4) allocates a new identifier and snapshot context; the WAL
receives a begin record.  Returns the new id and the next state. -/
def beginTx (s : DBState) (iso : Iso) : Nat × DBState :=
  let t := s.nextTx
  (t, { s with
    txs := updTx s.txs t (some ⟨iso, .active, s.clock, s.committed, [], []⟩)
    nextTx := t + 1
    clock := s.clock + 1
    wal := s.wal ++ [WalRecord.beginR t] })

/-- Modelled from the spec: the value a read inside a transaction sees
(spec sections 4.4 and 9): first the transaction-local write overlay;
otherwise the latest committed value under read-committed, or the
begin-time snapshot under repeatable-read and serializable. -/
def txVisible (s : DBState) (tx : Tx) (k : Key) : Option Val :=
  match overlayLookup tx.writeSet k with
  | some ov => ov
  | none =>
    match tx.iso with
    | .readCommitted => s.committed k
    | _ => tx.snapshot k

/-- Modelled from the spec: transactional get (header line 64, spec
section 4.4): records the key in the read set and applies the
visibility rules; a missing key fails with KeyNotFound; an unknown or
non-active transaction fails with InvalidTransaction. -/
def txGet (s : DBState) (t : Nat) (k : Key) : Except LowkeyErr Val × DBState :=
  match s.txs t with
  | none => (.error .invalidTransaction, s)
  | some tx =>
    if tx.status = TxStatus.active then
      let s' := { s with txs := updTx s.txs t (some { tx with readSet := k :: tx.readSet }) }
      match txVisible s tx k with
      | some v => (.ok v, s')
      | none => (.error .keyNotFound, s')
    else (.error .invalidTransaction, s)

/-- Modelled from the spec: transactional put (header line 63, spec
section 4.4): buffers the write in the write set (deferred update: the
committed store is untouched until commit). -/
def txPut (s : DBState) (t : Nat) (k : Key) (v : Val) : Except LowkeyErr Unit × DBState :=
  match s.txs t with
  | none => (.error .invalidTransaction, s)
  | some tx =>
    if tx.status = TxStatus.active then
      (.ok (), { s with txs := updTx s.txs t (some { tx with writeSet := tx.writeSet ++ [(k, some v)] }) })
    else (.error .invalidTransaction, s)

/-- Modelled from the spec: transactional delete (header line 65):
observes the key's visibility (recording it in the read set), fails
with KeyNotFound when the key is not visible, and otherwise buffers a
tombstone. -/
def txDel (s : DBState) (t : Nat) (k : Key) : Except LowkeyErr Unit × DBState :=
  match s.txs t with
  | none => (.error .invalidTransaction, s)
  | some tx =>
    if tx.status = TxStatus.active then
      match txVisible s tx k with
      | none =>
        (.error .keyNotFound,
          { s with txs := updTx s.txs t (some { tx with readSet := k :: tx.readSet }) })
      | some _ =>
        let tx2 := { tx with readSet := k :: tx.readSet, writeSet := tx.writeSet ++ [(k, none)] }
        (.ok (), { s with txs := updTx s.txs t (some tx2) })
    else (.error .invalidTransaction, s)

/-- First-committer-wins validation (spec section 4.4): does some
concurrently committed transaction — one that committed after this
transaction began — write a key in this transaction's read set? -/
def hasConflictB (s : DBState) (tx : Tx) : Bool :=
  tx.readSet.any (fun k => decide (tx.beginTime < s.lastCommit k))

/-- Modelled from the spec: `commit(tx_id)` (header line 61, spec
section 4.4): fails with InvalidTransaction when the id is unknown or
already terminal; for a serializable transaction it validates
first-committer-wins and fails with TransactionConflict (marking the
transaction Conflicted) on violation; otherwise it appends the data
records and the commit record to the WAL (the data records become
durable before the commit record, and the whole block is contiguous so
a transaction fully precedes or fully follows any checkpoint marker,
spec section 5), applies the buffered writes, and records the commit
time of every written key. -/
def commitTx (s : DBState) (t : Nat) : Except LowkeyErr Unit × DBState :=
  match s.txs t with
  | none => (.error .invalidTransaction, s)
  | some tx =>
    if tx.status = TxStatus.active then
      if tx.iso = Iso.serializable ∧ hasConflictB s tx = true then
        (.error .transactionConflict,
          { s with txs := updTx s.txs t (some { tx with status := .conflicted }) })
      else
        (.ok (), { s with
          committed := applyWrites s.committed tx.writeSet
          txs := updTx s.txs t (some { tx with status := .committed })
          lastCommit := bumpLast s.lastCommit tx.writeSet s.clock
          clock := s.clock + 1
          liveKeys := updKeys s.liveKeys tx.writeSet
          wal := s.wal ++ walPutRecords t tx.writeSet ++ [WalRecord.commitR t] })
    else (.error .invalidTransaction, s)

/-- Modelled from the spec: `rollback(tx_id)` (header line 62, spec
section 4.4): discards the write set and transitions to RolledBack;
always succeeds for a valid active transaction, and fails with
InvalidTransaction otherwise. -/
def rollbackTx (s : DBState) (t : Nat) : Except LowkeyErr Unit × DBState :=
  match s.txs t with
  | none => (.error .invalidTransaction, s)
  | some tx =>
    if tx.status = TxStatus.active then
      (.ok (), { s with
        txs := updTx s.txs t (some { tx with status := .rolledBack, writeSet := [] })
        wal := s.wal ++ [WalRecord.rollbackR t] })
    else (.error .invalidTransaction, s)

/-- Modelled from the spec: a crash in the middle of committing t (spec
sections 4.2 and 8): the transaction's data records reached the durable
WAL but its commit record did not, the in-memory apply never happened,
and after restart the transaction is gone (recovery must discard the
orphan records). -/
def commitCrash (s : DBState) (t : Nat) : DBState :=
  match s.txs t with
  | none => s
  | some tx =>
    if tx.status = TxStatus.active then
      { s with
        txs := updTx s.txs t (some { tx with status := .rolledBack })
        wal := s.wal ++ walPutRecords t tx.writeSet }
    else s

/-- Modelled from the spec: non-transactional put (header line 54, spec
section 4.5) is sugar for an implicit single-operation transaction at
read-committed isolation, auto-committed. -/
def putOp (s : DBState) (k : Key) (v : Val) : Except LowkeyErr Unit × DBState :=
  let t := s.nextTx
  let s1 := (beginTx s Iso.readCommitted).2
  let p := txPut s1 t k v
  match p.1 with
  | .ok _ => commitTx p.2 t
  | .error e => (.error e, p.2)

/-- Modelled from the spec: non-transactional get (header line 55, spec
section 4.5): an implicit read-committed transaction, auto-committed;
the call's result is the read's result. -/
def getOp (s : DBState) (k : Key) : Except LowkeyErr Val × DBState :=
  let t := s.nextTx
  let s1 := (beginTx s Iso.readCommitted).2
  let g := txGet s1 t k
  let c := commitTx g.2 t
  (g.1, c.2)

/-- Modelled from the spec: non-transactional delete (header line 56,
spec section 4.5): an implicit read-committed transaction,
auto-committed; KeyNotFound on an absent key. -/
def delOp (s : DBState) (k : Key) : Except LowkeyErr Unit × DBState :=
  let t := s.nextTx
  let s1 := (beginTx s Iso.readCommitted).2
  let d := txDel s1 t k
  let c := commitTx d.2 t
  (match d.1 with
   | .ok _ => c.1
   | .error e => .error e, c.2)

/-- Modelled from the spec: `checkpoint()` (header line 75, spec
section 4.3), parameterized by whether the dirty-page flush hits an I/O
failure.  On failure the checkpoint aborts with the I/O error and the
prior checkpoint state is left intact: nothing is flushed as a
checkpoint, the WAL is not truncated, nothing is archived, and the
counter is unchanged.  On success the dirty pages are flushed (the data
file now reflects the committed store), the checkpoint marker is
written and only then is the covered WAL prefix truncated and archived,
bounded by the configured maximum. -/
def checkpointOp (ioFail : Bool) (s : DBState) : Except LowkeyErr Unit × DBState :=
  if ioFail then (.error .ioErr, s)
  else
    (.ok (), { s with
      dataFile := s.committed
      wal := [WalRecord.checkpointR]
      ckptPerformed := s.ckptPerformed + 1
      archivedWals := min (s.archivedWals + 1) s.config.max_archived_wals })

/-- Does a WAL record mark the commit of transaction t? -/
def isCommitOf (t : Nat) : WalRecord → Bool
  | .commitR u => u == t
  | _ => false

/-- Is a WAL record a data (put or delete) record of transaction t? -/
def isDataOf (t : Nat) : WalRecord → Bool
  | .putR u _ _ => u == t
  | .delR u _ => u == t
  | _ => false

/-- The suffix of the WAL after the last checkpoint marker (the records
recovery must replay, spec section 4.2). -/
def afterLastMarker (l : List WalRecord) : List WalRecord :=
  l.foldl
    (fun acc r =>
      match r with
      | .checkpointR => []
      | _ => acc ++ [r])
    []

/-- Did some record in the list commit transaction t? -/
def committedIn (l : List WalRecord) (t : Nat) : Bool :=
  l.any (isCommitOf t)

/-- Redo of one WAL record during recovery: data records of committed
transactions are reapplied, everything else is discarded. -/
def replayRec (cset : Nat → Bool) (st : Store) : WalRecord → Store
  | .putR t k v => if cset t then (fun kk => if kk = k then some v else st kk) else st
  | .delR t k => if cset t then (fun kk => if kk = k then none else st kk) else st
  | _ => st

/-- Replay a record list over a base store, given the set of committed
transaction ids. -/
def replayWith (cset : Nat → Bool) (base : Store) (l : List WalRecord) : Store :=
  l.foldl (replayRec cset) base

/-- Modelled from the spec: the recovery protocol on open (spec
sections 4.2 and 6): starting from the data file, replay all WAL
records after the last checkpoint marker, reapplying committed
transactions' effects and discarding effects of transactions without a
commit record. -/
def recoverStore (s : DBState) : Store :=
  let post := afterLastMarker s.wal
  replayWith (committedIn post) s.dataFile post

/-- The alphabet of operations an open database can serve, including a
mid-commit crash and an I/O-failing checkpoint. -/
inductive DBOp where
  | putO (k : Key) (v : Val)
  | getO (k : Key)
  | delO (k : Key)
  | beginO (iso : Iso)
  | txPutO (t : Nat) (k : Key) (v : Val)
  | txGetO (t : Nat) (k : Key)
  | txDelO (t : Nat) (k : Key)
  | commitO (t : Nat)
  | rollbackO (t : Nat)
  | crashCommitO (t : Nat)
  | ckptO
  | ckptFailO

/-- One step of the database, discarding the call's result. -/
def step (s : DBState) : DBOp → DBState
  | .putO k v => (putOp s k v).2
  | .getO k => (getOp s k).2
  | .delO k => (delOp s k).2
  | .beginO iso => (beginTx s iso).2
  | .txPutO t k v => (txPut s t k v).2
  | .txGetO t k => (txGet s t k).2
  | .txDelO t k => (txDel s t k).2
  | .commitO t => (commitTx s t).2
  | .rollbackO t => (rollbackTx s t).2
  | .crashCommitO t => commitCrash s t
  | .ckptO => (checkpointOp false s).2
  | .ckptFailO => (checkpointOp true s).2

/-- Run a sequence of operations from a given state. -/
def runFrom (s : DBState) (ops : List DBOp) : DBState :=
  ops.foldl step s

/-- Run a sequence of operations on a fresh database. -/
def run (ops : List DBOp) : DBState :=
  runFrom initState ops

/-- C-string marshalling at the binding boundary: `lowkeydb_put` and
`lowkeydb_get` (header lines 54-55) pass keys and values as
NUL-terminated `const char*` with no length parameter, so the engine
receives only the bytes before the first zero byte. -/
def cstr (bs : List Nat) : List Nat :=
  bs.takeWhile (fun b => !(b == 0))

/-- The boundary view of `lowkeydb_put` (header line 54): the key and
value cross the boundary as C strings; an empty (or NULL-equivalent)
key is a parameter-validation failure. -/
def lowkeydb_put (s : DBState) (key value : List Nat) : Except LowkeyErr Unit × DBState :=
  if cstr key = [] then (.error .invalidParam, s)
  else putOp s (cstr key) (cstr value)

/-- The boundary view of `lowkeydb_get` (header line 55): the key
crosses as a C string; the value comes back through `value_out` and
`value_len`, so the returned byte list carries its exact length. -/
def lowkeydb_get (s : DBState) (key : List Nat) : Except LowkeyErr (List Nat) × DBState :=
  if cstr key = [] then (.error .invalidParam, s)
  else getOp s (cstr key)

/-- The value a C caller receives from one of the boundary functions:
an `int` status code, a `uint64_t`, or nothing (a `void` return). -/
inductive CRet where
  | code (c : Int)
  | u64 (n : Nat)
  | unitR
  deriving DecidableEq, Repr

/-- `lowkeydb_key_count` (header line 57) returns a plain `uint64_t`
with no error channel; on an invalid handle the model returns 0, and no
error code can be surfaced. -/
def lowkeydb_key_count (db : Option DBState) : CRet :=
  .u64 (match db with
        | none => 0
        | some s => s.liveKeys.length)

/-- `lowkeydb_close` (header line 51) returns `void`: it releases the
instance and can surface no error code, also on an invalid handle. -/
def lowkeydb_close (db : Option DBState) : CRet × Option DBState :=
  let _ := db
  (.unitR, none)

/-- `lowkeydb_configure_checkpointing` (header line 72) returns `void`:
it records the checkpoint policy and can surface no error code. -/
def lowkeydb_configure_checkpointing (db : Option DBState)
    (interval_ms max_wal_size_mb max_archived_wals : Nat) : CRet × Option DBState :=
  (.unitR, db.map (fun s => { s with config := ⟨interval_ms, max_wal_size_mb, max_archived_wals⟩ }))

/-- `lowkeydb_stop_auto_checkpoint` (header line 74) returns `void`: it
disables the background checkpoint timer and can surface no error
code. -/
def lowkeydb_stop_auto_checkpoint (db : Option DBState) : CRet × Option DBState :=
  (.unitR, db.map (fun s => { s with autoCkpt := false }))

/-- Modelled from the spec: a buffer frame (spec section 3) — the page
number it holds, its pin count and its dirty flag. -/
structure BufFrame where
  pageNo : Nat
  pinCount : Nat
  dirty : Bool
  deriving DecidableEq, Repr

/-- Modelled from the spec: the buffer pool (spec section 4.1) with its
frame table (kept in most-recently-used-first order) and the counters
of the statistics snapshot. -/
structure BufPool where
  capacity : Nat
  frames : List BufFrame
  cache_hits : Nat
  cache_misses : Nat
  evictions : Nat
  write_backs : Nat
  deriving DecidableEq, Repr

/-- Find the first frame satisfying a predicate and return it together
with the remaining frames in order. -/
def extractF (pred : BufFrame → Bool) : List BufFrame → Option (BufFrame × List BufFrame)
  | [] => none
  | f :: fs =>
    if pred f then some (f, fs)
    else
      match extractF pred fs with
      | some g => some (g.1, f :: g.2)
      | none => none

/-- Modelled from the spec: `fetch(page_no)` (spec section 4.1).  A hit
increments the hit counter, pins the frame and promotes it to
most-recently-used.  A miss increments the miss counter and loads the
page: into a free slot while the pool is below capacity, otherwise by
evicting the least-recently-used unpinned frame (counting the eviction,
and a write-back when the victim was dirty).  When every frame is
pinned the fetch cannot complete (the caller blocks; the model returns
no frame and leaves the frame table unchanged). -/
def fetch (b : BufPool) (p : Nat) : Option BufFrame × BufPool :=
  match extractF (fun f => f.pageNo == p) b.frames with
  | some (f, rest) =>
    let f2 := { f with pinCount := f.pinCount + 1 }
    (some f2, { b with frames := f2 :: rest, cache_hits := b.cache_hits + 1 })
  | none =>
    if b.frames.length < b.capacity then
      let nf : BufFrame := ⟨p, 1, false⟩
      (some nf, { b with frames := nf :: b.frames, cache_misses := b.cache_misses + 1 })
    else
      match extractF (fun f => f.pinCount == 0) b.frames.reverse with
      | some (victim, restRev) =>
        let nf : BufFrame := ⟨p, 1, false⟩
        (some nf, { b with
          frames := nf :: restRev.reverse
          cache_misses := b.cache_misses + 1
          evictions := b.evictions + 1
          write_backs := b.write_backs + (if victim.dirty then 1 else 0) })
      | none => (none, { b with cache_misses := b.cache_misses + 1 })

/-- Modelled from the spec: `unpin(page_no, dirty)` (spec section 4.1):
drops one pin from the page's frame and merges the dirty flag. -/
def unpin (b : BufPool) (p : Nat) (d : Bool) : BufPool :=
  { b with frames :=
      b.frames.map (fun f =>
        if f.pageNo == p then { f with pinCount := f.pinCount - 1, dirty := f.dirty || d } else f) }

/-- The buffer pool's operation alphabet. -/
inductive BufOp where
  | fetchB (p : Nat)
  | unpinB (p : Nat) (d : Bool)

/-- One buffer-pool step, discarding the returned frame. -/
def stepBuf (b : BufPool) : BufOp → BufPool
  | .fetchB p => (fetch b p).2
  | .unpinB p d => unpin b p d

/-- An empty buffer pool of the given capacity. -/
def initBuf (c : Nat) : BufPool :=
  ⟨c, [], 0, 0, 0, 0⟩

/-- Run a sequence of buffer-pool operations from an empty pool. -/
def runBuf (c : Nat) (ops : List BufOp) : BufPool :=
  ops.foldl stepBuf (initBuf c)

/-- The number of fetch calls in an operation sequence. -/
def countFetch (ops : List BufOp) : Nat :=
  ops.countP (fun op => match op with | .fetchB _ => true | _ => false)

/-- The statistics snapshot of LowkeyDBBufferStats (header lines
30-38); `hitRate` models the hit_ratio field as an exact rational
hits / (hits + misses). -/
structure BufStatsSnap where
  capacity : Nat
  pages_in_buffer : Nat
  cache_hits : Nat
  cache_misses : Nat
  hitRate : Rat
  evictions : Nat
  write_backs : Nat

/-- `lowkeydb_get_buffer_stats` (header line 68): the snapshot of the
pool's counters, with hit_ratio recomputed as hits / (hits + misses). -/
def lowkeydb_get_buffer_stats (b : BufPool) : BufStatsSnap where
  capacity := b.capacity
  pages_in_buffer := b.frames.length
  cache_hits := b.cache_hits
  cache_misses := b.cache_misses
  hitRate := (b.cache_hits : Rat) / ((b.cache_hits : Rat) + (b.cache_misses : Rat))
  evictions := b.evictions
  write_backs := b.write_backs

/-- The non-transactional operation alphabet of the key-value engine
(spec section 4.5): put, get, delete by key. -/
inductive KOp where
  | putK (k : Key) (v : Val)
  | getK (k : Key)
  | delK (k : Key)
  deriving DecidableEq, Repr

/-- Embed a non-transactional operation into the full alphabet. -/
def kopTo : KOp → DBOp
  | .putK k v => .putO k v
  | .getK k => .getO k
  | .delK k => .delO k

/-- Run a sequence of non-transactional operations from a state. -/
def runKFrom (s : DBState) (ops : List KOp) : DBState :=
  ops.foldl (fun st op => step st (kopTo op)) s

/-- Run a sequence of non-transactional operations on a fresh
database. -/
def runK (ops : List KOp) : DBState :=
  runKFrom initState ops

/-- The effect of one non-transactional operation on the value stored
at key k. -/
def effK (k : Key) (acc : Option Val) : KOp → Option Val
  | .putK k2 v => if k = k2 then some v else acc
  | .delK k2 => if k = k2 then none else acc
  | .getK _ => acc

/-- Does a non-transactional operation write (put or delete) key k? -/
def touchesK (k : Key) : KOp → Bool
  | .putK k2 _ => k2 == k
  | .delK k2 => k2 == k
  | .getK _ => false

/-- Is a non-transactional operation a put of key k? -/
def isPutK (k : Key) : KOp → Bool
  | .putK k2 _ => k2 == k
  | _ => false

/-- Does an operation act on, or in the name of, transaction t? -/
def opUsesTx (t : Nat) : DBOp → Bool
  | .txPutO u _ _ => u == t
  | .txGetO u _ => u == t
  | .txDelO u _ => u == t
  | .commitO u => u == t
  | .rollbackO u => u == t
  | .crashCommitO u => u == t
  | _ => false

/-- Is an operation a buffered write (put or delete) via transaction
t? -/
def isWriteVia (t : Nat) : DBOp → Bool
  | .txPutO u _ _ => u == t
  | .txDelO u _ => u == t
  | _ => false

/-- The first-committer-wins scenario of spec section 8: two
serializable transactions (ids 1 and 2) both read key [9] and both
buffer a write to it. -/
def fcwState : DBState :=
  run [DBOp.putO [9] [1],
       DBOp.beginO Iso.serializable, DBOp.beginO Iso.serializable,
       DBOp.txGetO 1 [9], DBOp.txGetO 2 [9],
       DBOp.txPutO 1 [9] [10], DBOp.txPutO 2 [9] [20]]

/-- The value a repeatable-read transaction sees for a key: its own
overlay, else its begin-time snapshot — independent of the shared
state. -/
def rrVal (tx : Tx) (k : Key) : Option Val :=
  match overlayLookup tx.writeSet k with
  | some ov => ov
  | none => tx.snapshot k

/-- Scenario: key [9] holds [1] and transaction 1 is open at
repeatable-read. -/
def rrScenario : DBState := run [DBOp.putO [9] [1], DBOp.beginO Iso.repeatableRead]

/-- Scenario: key [9] holds [1] and transaction 1 is open at
read-committed. -/
def rcScenario : DBState := run [DBOp.putO [9] [1], DBOp.beginO Iso.readCommitted]

/-- Scenario: key [1] holds [2]; used for the rollback property. -/
def rbScenario : DBState := run [DBOp.putO [1] [2]]

/-- The WAL suffix recovery replays: the records after the last
checkpoint marker. -/
def postWal (s : DBState) : List WalRecord := afterLastMarker s.wal

/-- No data or commit record of transaction t occurs in the list. -/
def noTxRecords (t : Nat) (l : List WalRecord) : Prop :=
  ∀ r ∈ l, isDataOf t r = false ∧ isCommitOf t r = false

/-- The recovery invariant: replaying the post-checkpoint WAL over the
data file reproduces the committed store; an active transaction has no
data or commit records in the replayable WAL suffix (deferred update:
its records are written at commit); and unallocated transaction ids
have no record at all. -/
def DBInv (s : DBState) : Prop :=
  (∀ k, recoverStore s k = s.committed k) ∧
  (∀ t tx, s.txs t = some tx → tx.status = TxStatus.active → noTxRecords t (postWal s)) ∧
  (∀ t, s.nextTx ≤ t → s.txs t = none ∧ noTxRecords t (postWal s))

/-- The effect of a non-transactional put on the committed store:
exactly the one key is updated. -/
theorem putOp_committed (s : DBState) (k : Key) (v : Val) (kk : Key) :
    ((putOp s k v).2).committed kk = if kk = k then some v else s.committed kk := by
  simp [putOp, beginTx, txPut, updTx, commitTx, hasConflictB, applyWrites, walPutRecords,
    bumpLast, updKeys, overlayLookup]

/-- The result of a non-transactional get is determined by the
committed store: the stored value, or KeyNotFound. -/
theorem getOp_result (s : DBState) (k : Key) :
    (getOp s k).1 =
      (match s.committed k with
       | some v => Except.ok v
       | none => Except.error LowkeyErr.keyNotFound) := by
  cases h : s.committed k <;>
    simp [getOp, beginTx, txGet, txVisible, overlayLookup, updTx, h]

/-- A non-transactional get leaves the committed store unchanged. -/
theorem getOp_committed (s : DBState) (k : Key) (kk : Key) :
    ((getOp s k).2).committed kk = s.committed kk := by
  cases h : s.committed k <;>
    simp [getOp, beginTx, txGet, txVisible, overlayLookup, updTx, commitTx, hasConflictB,
      applyWrites, walPutRecords, bumpLast, updKeys, h]

/-- The effect of a non-transactional delete on the committed store:
the key is absent afterwards, all other keys are unchanged. -/
theorem delOp_committed (s : DBState) (k : Key) (kk : Key) :
    ((delOp s k).2).committed kk = if kk = k then none else s.committed kk := by
  cases h : s.committed k with
  | none =>
    simp [delOp, beginTx, txDel, txVisible, overlayLookup, updTx, commitTx, hasConflictB,
      applyWrites, walPutRecords, bumpLast, updKeys, h]
    by_cases hkk : kk = k
    · rw [if_pos hkk, hkk, h]
    · rw [if_neg hkk]
  | some v =>
    simp [delOp, beginTx, txDel, txVisible, overlayLookup, updTx, commitTx, hasConflictB,
      applyWrites, walPutRecords, bumpLast, updKeys, h]

/-- The committed value of a key after a run of non-transactional
operations is the left fold of their per-key effects. -/
theorem runKFrom_committed (ops : List KOp) :
    ∀ (s : DBState) (k : Key),
      (runKFrom s ops).committed k = ops.foldl (effK k) (s.committed k) := by
  induction ops with
  | nil => intro s k; rfl
  | cons op ops ih =>
    intro s k
    show (runKFrom (step s (kopTo op)) ops).committed k = _
    rw [ih]
    have hstep : (step s (kopTo op)).committed k = effK k (s.committed k) op := by
      cases op with
      | putK k2 v => exact putOp_committed s k2 v k
      | getK k2 => exact getOp_committed s k2 k
      | delK k2 => exact delOp_committed s k2 k
    rw [List.foldl_cons, hstep]

/-- Operations that do not write key k leave its folded value
unchanged. -/
theorem foldl_effK_untouched (k : Key) (post : List KOp)
    (h : ∀ op ∈ post, touchesK k op = false) :
    ∀ acc, post.foldl (effK k) acc = acc := by
  induction post with
  | nil => intro acc; rfl
  | cons op ops ih =>
    intro acc
    have hop := h op (List.mem_cons_self op ops)
    have hrest : ∀ op2 ∈ ops, touchesK k op2 = false :=
      fun op2 hm => h op2 (List.mem_cons_of_mem op hm)
    have heff : effK k acc op = acc := by
      cases op with
      | putK k2 v =>
        simp [touchesK] at hop
        simp [effK]
        intro hh
        exact absurd hh.symm hop
      | getK k2 => rfl
      | delK k2 =>
        simp [touchesK] at hop
        simp [effK]
        intro hh
        exact absurd hh.symm hop
    rw [List.foldl_cons, heff, ih hrest]

/-- Once a key is absent, operations that never put it keep it
absent. -/
theorem foldl_effK_noPut (k : Key) (post : List KOp)
    (h : ∀ op ∈ post, isPutK k op = false) :
    post.foldl (effK k) none = none := by
  induction post with
  | nil => rfl
  | cons op ops ih =>
    have hop := h op (List.mem_cons_self op ops)
    have hrest : ∀ op2 ∈ ops, isPutK k op2 = false :=
      fun op2 hm => h op2 (List.mem_cons_of_mem op hm)
    have heff : effK k none op = none := by
      cases op with
      | putK k2 v =>
        simp [isPutK] at hop
        simp [effK]
        exact fun hh => absurd hh.symm hop
      | getK k2 => rfl
      | delK k2 => simp [effK]
    rw [List.foldl_cons, heff, ih hrest]

/-- Claim C1: over every sequence of non-transactional put/get/delete
operations on an open database, a get of key k after a put of (k, v)
with no intervening put or delete of k returns exactly v; a get of k
after a delete of k with no intervening put of k fails with
KeyNotFound; and a get of a key never put fails with KeyNotFound. -/
theorem c1_nontx_put_get_delete :
    (∀ (pre post : List KOp) (k : Key) (v : Val),
       (∀ op ∈ post, touchesK k op = false) →
       (getOp (runK (pre ++ KOp.putK k v :: post)) k).1 = Except.ok v) ∧
    (∀ (pre post : List KOp) (k : Key),
       (∀ op ∈ post, isPutK k op = false) →
       (getOp (runK (pre ++ KOp.delK k :: post)) k).1 = Except.error LowkeyErr.keyNotFound) ∧
    (∀ (ops : List KOp) (k : Key),
       (∀ op ∈ ops, isPutK k op = false) →
       (getOp (runK ops) k).1 = Except.error LowkeyErr.keyNotFound) := by
  refine ⟨?_, ?_, ?_⟩
  · intro pre post k v h
    rw [getOp_result, runK, runKFrom_committed, List.foldl_append, List.foldl_cons]
    have heff : effK k (List.foldl (effK k) (initState.committed k) pre) (KOp.putK k v) = some v := by
      simp [effK]
    rw [heff, foldl_effK_untouched k post h]
  · intro pre post k h
    rw [getOp_result, runK, runKFrom_committed, List.foldl_append, List.foldl_cons]
    have heff : effK k (List.foldl (effK k) (initState.committed k) pre) (KOp.delK k) = none := by
      simp [effK]
    rw [heff, foldl_effK_noPut k post h]
  · intro ops k h
    rw [getOp_result, runK, runKFrom_committed]
    have hinit : initState.committed k = none := rfl
    rw [hinit, foldl_effK_noPut k ops h]

/-- Witness for claim C1 at concrete inputs: the hypotheses hold and
the theorem applies. -/
theorem c1_nontx_put_get_delete_witness :
    (∀ op ∈ [KOp.getK [2]], touchesK [1] op = false) ∧
    (getOp (runK ([] ++ KOp.putK [1] [5] :: [KOp.getK [2]])) [1]).1 = Except.ok [5] ∧
    (∀ op ∈ [KOp.getK [1]], isPutK [1] op = false) ∧
    (getOp (runK ([KOp.putK [1] [5]] ++ KOp.delK [1] :: [KOp.getK [1]])) [1]).1 =
      Except.error LowkeyErr.keyNotFound ∧
    (getOp (runK [KOp.putK [2] [7]]) [1]).1 = Except.error LowkeyErr.keyNotFound :=
  ⟨by decide,
   c1_nontx_put_get_delete.1 [] [KOp.getK [2]] [1] [5] (by decide),
   by decide,
   c1_nontx_put_get_delete.2.1 [KOp.putK [1] [5]] [KOp.getK [1]] [1] (by decide),
   c1_nontx_put_get_delete.2.2 [KOp.putK [2] [7]] [1] (by decide)⟩

/-- C strings keep all bytes up to the first zero byte; a byte string
free of zero bytes crosses the boundary intact. -/
theorem cstr_eq_self : ∀ (k : List Nat), (0 : Nat) ∉ k → cstr k = k := by
  intro k
  induction k with
  | nil => intro _; rfl
  | cons b bs ih =>
    intro h
    have hb : ¬b = 0 := by
      intro hb0
      exact h (by simp [hb0])
    have hbs : (0 : Nat) ∉ bs := fun hm => h (List.mem_cons_of_mem b hm)
    simp [cstr, List.takeWhile_cons, hb]
    have := ih hbs
    simpa [cstr] using this

/-- At the engine level a put followed by a get of the same key returns
the written value. -/
theorem engine_put_get (s : DBState) (k : Key) (v : Val) :
    (getOp (putOp s k v).2 k).1 = Except.ok v := by
  rw [getOp_result, putOp_committed]
  simp

/-- Counterexample to claim C9 as stated: a value with an interior zero
byte does not round-trip through the C boundary, because
`lowkeydb_put` (header line 54) passes the value as a NUL-terminated
`const char*` with no length, so the engine receives only the bytes
before the first zero.  Putting value [97, 0, 98] under key [1] and
getting it back yields [97]. -/
theorem c9_zero_byte_cex :
    (lowkeydb_get (lowkeydb_put initState [1] [97, 0, 98]).2 [1]).1 = Except.ok [97] ∧
    (Except.ok ([97] : List Nat) : Except LowkeyErr (List Nat)) ≠ Except.ok [97, 0, 98] :=
  ⟨rfl, fun hcontra => absurd (Except.ok.inj hcontra) (by decide)⟩

/-- Claim C9 (amended): for every key and value free of zero bytes (the
key nonempty), put stores the pair and a subsequent get returns the
identical value bytes with the exact length; the engine assumes no
ordering or character encoding beyond the boundary's NUL
termination. -/
theorem c9_nul_free_roundtrip (s : DBState) (k v : List Nat)
    (hk : k ≠ []) (hk0 : (0 : Nat) ∉ k) (hv0 : (0 : Nat) ∉ v) :
    (lowkeydb_get (lowkeydb_put s k v).2 k).1 = Except.ok v := by
  have hck : cstr k = k := cstr_eq_self k hk0
  have hcv : cstr v = v := cstr_eq_self v hv0
  rw [lowkeydb_put, lowkeydb_get, hck]
  rw [if_neg hk, if_neg hk]
  rw [hcv]
  exact engine_put_get s k v

/-- Witness for the amended claim C9 at concrete inputs. -/
theorem c9_nul_free_roundtrip_witness :
    ([1] : List Nat) ≠ [] ∧ (0 : Nat) ∉ ([1] : List Nat) ∧ (0 : Nat) ∉ ([2, 3] : List Nat) ∧
    (lowkeydb_get (lowkeydb_put initState [1] [2, 3]).2 [1]).1 = Except.ok [2, 3] :=
  ⟨by decide, by decide, by decide,
   c9_nul_free_roundtrip initState [1] [2, 3] (by decide) (by decide) (by decide)⟩

/-- Claim C10: lowkeydb_key_count, lowkeydb_close,
lowkeydb_configure_checkpointing and lowkeydb_stop_auto_checkpoint have
no error return channel: for every input, including an invalid handle,
key_count returns some uint64 (never an error code) and the
void-returning calls return without any error code, so their
parameter-validation failures are not observable at the boundary. -/
theorem c10_no_error_channel :
    (∀ db : Option DBState, ∃ n : Nat, lowkeydb_key_count db = CRet.u64 n) ∧
    (∀ db : Option DBState, (lowkeydb_close db).1 = CRet.unitR) ∧
    (∀ (db : Option DBState) (i w a : Nat),
       (lowkeydb_configure_checkpointing db i w a).1 = CRet.unitR) ∧
    (∀ db : Option DBState, (lowkeydb_stop_auto_checkpoint db).1 = CRet.unitR) ∧
    lowkeydb_key_count none = CRet.u64 0 ∧
    (∀ (db : Option DBState) (c : Int), lowkeydb_key_count db ≠ CRet.code c) := by
  refine ⟨fun db => ⟨_, rfl⟩, fun db => rfl, fun db i w a => rfl, fun db => rfl, rfl, ?_⟩
  intro db c h
  simp [lowkeydb_key_count] at h

/-- Claim C8: the numeric codes surfaced at the boundary are exactly
OK = 0, InvalidParam = -1, Memory = -2, IO(error) = -3,
KeyNotFound = -4, TransactionConflict = -5, InvalidTransaction = -6,
Generic = -100, and for every code the message function returns the
same fixed nonempty human-readable message on every call. -/
theorem c8_error_codes_fixed_messages :
    boundaryCodes = [0, -1, -2, -3, -4, -5, -6, -100] ∧
    (∀ (c : Int) (n m : Nat), errorMessageAt c n = errorMessageAt c m) ∧
    (∀ e : LowkeyErr, lowkeydb_error_message (errCode e) ≠ []) := by
  refine ⟨rfl, fun c n m => rfl, ?_⟩
  intro e
  cases e <;> decide

/-- The executable conflict check agrees with the logical
first-committer-wins condition. -/
theorem hasConflictB_iff (s : DBState) (tx : Tx) :
    hasConflictB s tx = true ↔ ∃ k ∈ tx.readSet, tx.beginTime < s.lastCommit k := by
  simp [hasConflictB, List.any_eq_true]

/-- Commit fails with TransactionConflict exactly for an active
serializable transaction some of whose read keys were written by a
transaction that committed after it began. -/
theorem commit_conflict_iff (s : DBState) (t : Nat) :
    (commitTx s t).1 = Except.error LowkeyErr.transactionConflict ↔
      ∃ tx, s.txs t = some tx ∧ tx.status = TxStatus.active ∧ tx.iso = Iso.serializable ∧
        ∃ k ∈ tx.readSet, tx.beginTime < s.lastCommit k := by
  cases h : s.txs t with
  | none => simp [commitTx, h]
  | some tx =>
    by_cases hst : tx.status = TxStatus.active
    · by_cases hconf : tx.iso = Iso.serializable ∧ hasConflictB s tx = true
      · simp only [commitTx, h, hst, if_pos, if_true, hconf]
        constructor
        · intro _
          exact ⟨tx, rfl, hst, hconf.1, (hasConflictB_iff s tx).mp hconf.2⟩
        · intro _; rfl
      · simp only [commitTx, h, hst, if_true, if_neg hconf]
        constructor
        · intro hcontra
          exact absurd hcontra (by simp)
        · rintro ⟨tx2, htx2, hst2, hiso2, hk2⟩
          rw [Option.some.inj htx2] at hconf
          exact absurd ⟨hiso2, (hasConflictB_iff s tx2).mpr hk2⟩ hconf
    · simp only [commitTx, h, if_neg hst]
      constructor
      · intro hcontra
        exact absurd hcontra (by simp)
      · rintro ⟨tx2, htx2, hst2, _⟩
        rw [Option.some.inj htx2] at hst
        exact absurd hst2 hst

/-- Commit fails with InvalidTransaction exactly for an unknown or
already-terminal transaction id. -/
theorem commit_invalid_iff (s : DBState) (t : Nat) :
    (commitTx s t).1 = Except.error LowkeyErr.invalidTransaction ↔
      (s.txs t = none ∨ ∃ tx, s.txs t = some tx ∧ tx.status ≠ TxStatus.active) := by
  cases h : s.txs t with
  | none => simp [commitTx, h]
  | some tx =>
    by_cases hst : tx.status = TxStatus.active
    · by_cases hconf : tx.iso = Iso.serializable ∧ hasConflictB s tx = true
      · simp only [commitTx, h, hst, if_true, if_pos hconf]
        constructor
        · intro hcontra
          exact absurd hcontra (by simp)
        · rintro (hnone | ⟨tx2, htx2, hst2⟩)
          · exact absurd hnone (by simp)
          · rw [Option.some.inj htx2] at hst
            exact absurd hst hst2
      · simp only [commitTx, h, hst, if_true, if_neg hconf]
        constructor
        · intro hcontra
          exact absurd hcontra (by simp)
        · rintro (hnone | ⟨tx2, htx2, hst2⟩)
          · exact absurd hnone (by simp)
          · rw [Option.some.inj htx2] at hst
            exact absurd hst hst2
    · simp only [commitTx, h, if_neg hst]
      constructor
      · intro _
        exact Or.inr ⟨tx, rfl, hst⟩
      · intro _; trivial

/-- A commit of an active transaction that passes validation succeeds
and applies exactly its buffered writes to the committed store. -/
theorem commit_success (s : DBState) (t : Nat) (tx : Tx)
    (h : s.txs t = some tx) (hst : tx.status = TxStatus.active)
    (hnc : ¬(tx.iso = Iso.serializable ∧ hasConflictB s tx = true)) :
    (commitTx s t).1 = Except.ok () ∧
      ∀ k, ((commitTx s t).2).committed k = applyWrites s.committed tx.writeSet k := by
  simp only [commitTx, h, hst, if_true, if_neg hnc]
  exact ⟨trivial, fun k => trivial⟩

/-- A key in the write set makes the write-set membership check
true. -/
theorem mem_writes_any (ws : List (Key × Option Val)) (k : Key)
    (h : k ∈ ws.map Prod.fst) : (ws.any (fun kv => kv.1 = k)) = true := by
  rw [List.any_eq_true]
  obtain ⟨kv, hkv, hfst⟩ := List.mem_map.mp h
  exact ⟨kv, hkv, by simp [hfst]⟩

/-- First-committer-wins: of two active serializable transactions that
both read key k, if the first commits a write to k then the second's
commit fails with TransactionConflict. -/
theorem commit_fcw (s : DBState) (t1 t2 : Nat) (tx1 tx2 : Tx) (k : Key)
    (hne : t1 ≠ t2) (h1 : s.txs t1 = some tx1) (h2 : s.txs t2 = some tx2)
    (ha1 : tx1.status = TxStatus.active) (ha2 : tx2.status = TxStatus.active)
    (_hi1 : tx1.iso = Iso.serializable) (hi2 : tx2.iso = Iso.serializable)
    (hr2 : k ∈ tx2.readSet) (hw1 : k ∈ tx1.writeSet.map Prod.fst)
    (hnc1 : hasConflictB s tx1 = false)
    (hbt2 : tx2.beginTime < s.clock) :
    (commitTx s t1).1 = Except.ok () ∧
      (commitTx (commitTx s t1).2 t2).1 = Except.error LowkeyErr.transactionConflict := by
  have hnc1a : ¬(tx1.iso = Iso.serializable ∧ hasConflictB s tx1 = true) := by
    rintro ⟨_, hcontra⟩
    rw [hnc1] at hcontra
    exact absurd hcontra (by simp)
  constructor
  · exact (commit_success s t1 tx1 h1 ha1 hnc1a).1
  · have hs1 : (commitTx s t1).2 =
        { s with
          committed := applyWrites s.committed tx1.writeSet
          txs := updTx s.txs t1 (some { tx1 with status := .committed })
          lastCommit := bumpLast s.lastCommit tx1.writeSet s.clock
          clock := s.clock + 1
          liveKeys := updKeys s.liveKeys tx1.writeSet
          wal := s.wal ++ walPutRecords t1 tx1.writeSet ++ [WalRecord.commitR t1] } := by
      simp only [commitTx, h1, ha1, if_true, if_neg hnc1a]
    rw [commit_conflict_iff]
    refine ⟨tx2, ?_, ha2, hi2, ⟨k, hr2, ?_⟩⟩
    · rw [hs1]
      show updTx s.txs t1 (some { tx1 with status := .committed }) t2 = some tx2
      rw [updTx, if_neg (fun hc => hne hc.symm)]
      exact h2
    · rw [hs1]
      show tx2.beginTime < bumpLast s.lastCommit tx1.writeSet s.clock k
      rw [bumpLast]
      rw [if_pos (mem_writes_any tx1.writeSet k hw1)]
      exact hbt2

/-- Claim C3: commit(t) fails with TransactionConflict exactly when t
is a live serializable transaction and some concurrently committed
transaction wrote a key in t's read set; fails with InvalidTransaction
exactly when t is unknown or already terminal; otherwise succeeds and
applies t's buffered writes; and of two serializable transactions that
both read key k and both write k, the first commit succeeds and the
second fails with TransactionConflict. -/
theorem c3_commit_outcomes :
    (∀ (s : DBState) (t : Nat),
       (commitTx s t).1 = Except.error LowkeyErr.transactionConflict ↔
         ∃ tx, s.txs t = some tx ∧ tx.status = TxStatus.active ∧ tx.iso = Iso.serializable ∧
           ∃ k ∈ tx.readSet, tx.beginTime < s.lastCommit k) ∧
    (∀ (s : DBState) (t : Nat),
       (commitTx s t).1 = Except.error LowkeyErr.invalidTransaction ↔
         (s.txs t = none ∨ ∃ tx, s.txs t = some tx ∧ tx.status ≠ TxStatus.active)) ∧
    (∀ (s : DBState) (t : Nat) (tx : Tx),
       s.txs t = some tx → tx.status = TxStatus.active →
       ¬(tx.iso = Iso.serializable ∧ hasConflictB s tx = true) →
       (commitTx s t).1 = Except.ok () ∧
         ∀ k, ((commitTx s t).2).committed k = applyWrites s.committed tx.writeSet k) ∧
    (∀ (s : DBState) (t1 t2 : Nat) (tx1 tx2 : Tx) (k : Key),
       t1 ≠ t2 → s.txs t1 = some tx1 → s.txs t2 = some tx2 →
       tx1.status = TxStatus.active → tx2.status = TxStatus.active →
       tx1.iso = Iso.serializable → tx2.iso = Iso.serializable →
       k ∈ tx2.readSet → k ∈ tx1.writeSet.map Prod.fst →
       hasConflictB s tx1 = false → tx2.beginTime < s.clock →
       (commitTx s t1).1 = Except.ok () ∧
         (commitTx (commitTx s t1).2 t2).1 = Except.error LowkeyErr.transactionConflict) :=
  ⟨commit_conflict_iff, commit_invalid_iff, commit_success, commit_fcw⟩

/-- Witness for claim C3: in the concrete first-committer-wins
scenario, transaction 1's commit succeeds and transaction 2's commit
fails with TransactionConflict. -/
theorem c3_commit_outcomes_witness :
    (1 : Nat) ≠ 2 ∧
    (commitTx fcwState 1).1 = Except.ok () ∧
    (commitTx (commitTx fcwState 1).2 2).1 = Except.error LowkeyErr.transactionConflict := by
  have h := c3_commit_outcomes.2.2.2 fcwState 1 2 _ _ [9] (by decide) rfl rfl rfl rfl rfl rfl
    (by decide) (by decide) (by decide) (by decide)
  exact ⟨by decide, h.1, h.2⟩

/-- Point update of the transaction table at a different id is
invisible. -/
theorem updTx_ne (f : Nat → Option Tx) (t : Nat) (v : Option Tx) (n : Nat) (hne : n ≠ t) :
    updTx f t v n = f n := if_neg hne

/-- Beginning a transaction does not disturb other transaction ids. -/
theorem beginTx_txs_ne (s : DBState) (iso : Iso) (t : Nat) (hne : t ≠ s.nextTx) :
    ((beginTx s iso).2).txs t = s.txs t := by
  simp only [beginTx]
  exact updTx_ne _ _ _ _ hne

/-- A transactional put touches only its own transaction's record. -/
theorem txPut_txs_ne (s : DBState) (u : Nat) (k : Key) (v : Val) (t : Nat) (hne : t ≠ u) :
    ((txPut s u k v).2).txs t = s.txs t := by
  cases h : s.txs u with
  | none => simp [txPut, h]
  | some tx =>
    by_cases hst : tx.status = TxStatus.active <;>
      simp [txPut, h, hst, updTx_ne _ _ _ _ hne]

/-- A transactional get touches only its own transaction's record. -/
theorem txGet_txs_ne (s : DBState) (u : Nat) (k : Key) (t : Nat) (hne : t ≠ u) :
    ((txGet s u k).2).txs t = s.txs t := by
  cases h : s.txs u with
  | none => simp [txGet, h]
  | some tx =>
    by_cases hst : tx.status = TxStatus.active
    · cases hv : txVisible s tx k <;>
        simp [txGet, h, hst, hv, updTx_ne _ _ _ _ hne]
    · simp [txGet, h, hst]

/-- A transactional delete touches only its own transaction's
record. -/
theorem txDel_txs_ne (s : DBState) (u : Nat) (k : Key) (t : Nat) (hne : t ≠ u) :
    ((txDel s u k).2).txs t = s.txs t := by
  cases h : s.txs u with
  | none => simp [txDel, h]
  | some tx =>
    by_cases hst : tx.status = TxStatus.active
    · cases hv : txVisible s tx k <;>
        simp [txDel, h, hst, hv, updTx_ne _ _ _ _ hne]
    · simp [txDel, h, hst]

/-- A commit touches only its own transaction's record. -/
theorem commitTx_txs_ne (s : DBState) (u : Nat) (t : Nat) (hne : t ≠ u) :
    ((commitTx s u).2).txs t = s.txs t := by
  cases h : s.txs u with
  | none => simp [commitTx, h]
  | some tx =>
    by_cases hst : tx.status = TxStatus.active
    · by_cases hconf : tx.iso = Iso.serializable ∧ hasConflictB s tx = true <;>
        simp [commitTx, h, hst, hconf, updTx_ne _ _ _ _ hne]
    · simp [commitTx, h, hst]

/-- Begin allocates exactly one new transaction id. -/
theorem beginTx_nextTx (s : DBState) (iso : Iso) :
    ((beginTx s iso).2).nextTx = s.nextTx + 1 := rfl

/-- A transactional put allocates no transaction id. -/
theorem txPut_nextTx (s : DBState) (u : Nat) (k : Key) (v : Val) :
    ((txPut s u k v).2).nextTx = s.nextTx := by
  cases h : s.txs u with
  | none => simp [txPut, h]
  | some tx =>
    by_cases hst : tx.status = TxStatus.active <;> simp [txPut, h, hst]

/-- A transactional get allocates no transaction id. -/
theorem txGet_nextTx (s : DBState) (u : Nat) (k : Key) :
    ((txGet s u k).2).nextTx = s.nextTx := by
  cases h : s.txs u with
  | none => simp [txGet, h]
  | some tx =>
    by_cases hst : tx.status = TxStatus.active
    · cases hv : txVisible s tx k <;> simp [txGet, h, hst, hv]
    · simp [txGet, h, hst]

/-- A transactional delete allocates no transaction id. -/
theorem txDel_nextTx (s : DBState) (u : Nat) (k : Key) :
    ((txDel s u k).2).nextTx = s.nextTx := by
  cases h : s.txs u with
  | none => simp [txDel, h]
  | some tx =>
    by_cases hst : tx.status = TxStatus.active
    · cases hv : txVisible s tx k <;> simp [txDel, h, hst, hv]
    · simp [txDel, h, hst]

/-- A commit allocates no transaction id. -/
theorem commitTx_nextTx (s : DBState) (u : Nat) :
    ((commitTx s u).2).nextTx = s.nextTx := by
  cases h : s.txs u with
  | none => simp [commitTx, h]
  | some tx =>
    by_cases hst : tx.status = TxStatus.active
    · by_cases hconf : tx.iso = Iso.serializable ∧ hasConflictB s tx = true <;>
        simp [commitTx, h, hst, hconf]
    · simp [commitTx, h, hst]

/-- A non-transactional operation (an implicit fresh transaction)
leaves every previously allocated transaction's record unchanged and
allocates one id. -/
theorem kstep_txs (s : DBState) (op : KOp) (t : Nat) (hlt : t < s.nextTx) :
    (step s (kopTo op)).txs t = s.txs t ∧ (step s (kopTo op)).nextTx = s.nextTx + 1 := by
  have hne : t ≠ s.nextTx := Nat.ne_of_lt hlt
  cases op with
  | putK k v =>
    constructor
    · show ((putOp s k v).2).txs t = s.txs t
      simp only [putOp]
      split
      · rw [commitTx_txs_ne _ _ _ hne, txPut_txs_ne _ _ _ _ _ hne, beginTx_txs_ne _ _ _ hne]
      · show ((txPut (beginTx s Iso.readCommitted).2 s.nextTx k v).2).txs t = s.txs t
        rw [txPut_txs_ne _ _ _ _ _ hne, beginTx_txs_ne _ _ _ hne]
    · show ((putOp s k v).2).nextTx = s.nextTx + 1
      simp only [putOp]
      split
      · rw [commitTx_nextTx, txPut_nextTx, beginTx_nextTx]
      · show ((txPut (beginTx s Iso.readCommitted).2 s.nextTx k v).2).nextTx = s.nextTx + 1
        rw [txPut_nextTx, beginTx_nextTx]
  | getK k =>
    constructor
    · show ((commitTx (txGet (beginTx s Iso.readCommitted).2 s.nextTx k).2 s.nextTx).2).txs t
        = s.txs t
      rw [commitTx_txs_ne _ _ _ hne, txGet_txs_ne _ _ _ _ hne, beginTx_txs_ne _ _ _ hne]
    · show ((commitTx (txGet (beginTx s Iso.readCommitted).2 s.nextTx k).2 s.nextTx).2).nextTx
        = s.nextTx + 1
      rw [commitTx_nextTx, txGet_nextTx, beginTx_nextTx]
  | delK k =>
    constructor
    · show ((commitTx (txDel (beginTx s Iso.readCommitted).2 s.nextTx k).2 s.nextTx).2).txs t
        = s.txs t
      rw [commitTx_txs_ne _ _ _ hne, txDel_txs_ne _ _ _ _ hne, beginTx_txs_ne _ _ _ hne]
    · show ((commitTx (txDel (beginTx s Iso.readCommitted).2 s.nextTx k).2 s.nextTx).2).nextTx
        = s.nextTx + 1
      rw [commitTx_nextTx, txDel_nextTx, beginTx_nextTx]

/-- A run of non-transactional operations leaves every previously
allocated transaction's record unchanged. -/
theorem runKFrom_txs (ops : List KOp) :
    ∀ (s : DBState) (t : Nat), t < s.nextTx →
      (runKFrom s ops).txs t = s.txs t ∧ t < (runKFrom s ops).nextTx := by
  induction ops with
  | nil => intro s t hlt; exact ⟨rfl, hlt⟩
  | cons op ops ih =>
    intro s t hlt
    have hstep := kstep_txs s op t hlt
    have hlt2 : t < (step s (kopTo op)).nextTx := by
      rw [hstep.2]; exact Nat.lt_succ_of_lt hlt
    have hrest := ih (step s (kopTo op)) t hlt2
    exact ⟨hrest.1.trans hstep.1, hrest.2⟩

/-- A repeatable-read transactional get is decided by the transaction's
own overlay and snapshot, not by the shared state. -/
theorem txGet_rr_result (s : DBState) (t : Nat) (tx : Tx) (k : Key)
    (h : s.txs t = some tx) (hst : tx.status = TxStatus.active)
    (hiso : tx.iso = Iso.repeatableRead) :
    (txGet s t k).1 =
      (match rrVal tx k with
       | some v => Except.ok v
       | none => Except.error LowkeyErr.keyNotFound) := by
  have hv : txVisible s tx k = rrVal tx k := by
    cases ho : overlayLookup tx.writeSet k <;> simp [txVisible, rrVal, hiso, ho]
  cases hr : rrVal tx k <;> simp [txGet, h, hst, hv, hr]

/-- A transactional get records the key in the read set and otherwise
keeps the transaction's record. -/
theorem txGet_txs_self (s : DBState) (t : Nat) (k : Key) (tx : Tx)
    (h : s.txs t = some tx) (hst : tx.status = TxStatus.active) :
    ((txGet s t k).2).txs t = some { tx with readSet := k :: tx.readSet } := by
  cases hv : txVisible s tx k <;> simp [txGet, h, hst, hv, updTx]

/-- A transactional get of a visible value returns it. -/
theorem txGet_result_of_visible (s : DBState) (t : Nat) (tx : Tx) (k : Key) (v : Val)
    (h : s.txs t = some tx) (hst : tx.status = TxStatus.active)
    (hvis : txVisible s tx k = some v) :
    (txGet s t k).1 = Except.ok v := by
  simp [txGet, h, hst, hvis]

/-- Claim C4: a repeatable-read transaction that reads the same key
twice obtains identical values across any interleaved sequence of
committed non-transactional writes (each an implicit committed
transaction), while a read-committed transaction's second read
observes an intervening committed put of that key. -/
theorem c4_isolation_repeated_reads :
    (∀ (s : DBState) (t : Nat) (k : Key) (tx : Tx) (ops : List KOp),
       s.txs t = some tx → tx.status = TxStatus.active → tx.iso = Iso.repeatableRead →
       t < s.nextTx →
       (txGet (runKFrom (txGet s t k).2 ops) t k).1 = (txGet s t k).1) ∧
    (∀ (s : DBState) (t : Nat) (k : Key) (tx : Tx) (v1 : Val),
       s.txs t = some tx → tx.status = TxStatus.active → tx.iso = Iso.readCommitted →
       t < s.nextTx → overlayLookup tx.writeSet k = none →
       (txGet (step (txGet s t k).2 (DBOp.putO k v1)) t k).1 = Except.ok v1) := by
  constructor
  · intro s t k tx ops h hst hiso hlt
    have hs1txs : ((txGet s t k).2).txs t = some { tx with readSet := k :: tx.readSet } :=
      txGet_txs_self s t k tx h hst
    have hs1next : ((txGet s t k).2).nextTx = s.nextTx := txGet_nextTx s t k
    have hlt1 : t < ((txGet s t k).2).nextTx := by rw [hs1next]; exact hlt
    have hrun := runKFrom_txs ops ((txGet s t k).2) t hlt1
    have htxs2 : (runKFrom (txGet s t k).2 ops).txs t
        = some { tx with readSet := k :: tx.readSet } :=
      hrun.1.trans hs1txs
    rw [txGet_rr_result _ t { tx with readSet := k :: tx.readSet } k htxs2 hst hiso]
    rw [txGet_rr_result s t tx k h hst hiso]
    rfl
  · intro s t k tx v1 h hst hiso hlt hov
    have hs1txs : ((txGet s t k).2).txs t = some { tx with readSet := k :: tx.readSet } :=
      txGet_txs_self s t k tx h hst
    have hs1next : ((txGet s t k).2).nextTx = s.nextTx := txGet_nextTx s t k
    have hlt1 : t < ((txGet s t k).2).nextTx := by rw [hs1next]; exact hlt
    have hstep := kstep_txs ((txGet s t k).2) (KOp.putK k v1) t hlt1
    have htxs2 : (step (txGet s t k).2 (DBOp.putO k v1)).txs t =
        some { tx with readSet := k :: tx.readSet } := hstep.1.trans hs1txs
    have hcomm : (step (txGet s t k).2 (DBOp.putO k v1)).committed k = some v1 := by
      show ((putOp (txGet s t k).2 k v1).2).committed k = some v1
      rw [putOp_committed]
      simp
    have hvis : txVisible (step (txGet s t k).2 (DBOp.putO k v1))
        { tx with readSet := k :: tx.readSet } k = some v1 := by
      simp only [txVisible]
      have hov2 : overlayLookup ({ tx with readSet := k :: tx.readSet } : Tx).writeSet k = none :=
        hov
      rw [hov2, hiso]
      exact hcomm
    exact txGet_result_of_visible _ t { tx with readSet := k :: tx.readSet } k v1 htxs2 hst hvis

/-- Witness for claim C4: with key [9] holding [1], a repeatable-read
transaction re-reads [1] after a concurrent committed put of [2], while
a read-committed transaction's second read observes [2]. -/
theorem c4_isolation_repeated_reads_witness :
    (1 : Nat) < rrScenario.nextTx ∧
    (txGet (runKFrom (txGet rrScenario 1 [9]).2 [KOp.putK [9] [2]]) 1 [9]).1 =
      (txGet rrScenario 1 [9]).1 ∧
    (txGet (step (txGet rcScenario 1 [9]).2 (DBOp.putO [9] [2])) 1 [9]).1 = Except.ok [2] :=
  ⟨by decide,
   c4_isolation_repeated_reads.1 rrScenario 1 [9] _ [KOp.putK [9] [2]] rfl rfl rfl (by decide),
   c4_isolation_repeated_reads.2 rcScenario 1 [9] _ [2] rfl rfl rfl (by decide) rfl⟩

/-- Buffered writes via a transaction never touch the committed store
(deferred update), and the transaction stays active. -/
theorem txWrites_preserved (ops : List DBOp) :
    ∀ (s : DBState) (t : Nat) (tx : Tx),
      s.txs t = some tx → tx.status = TxStatus.active →
      (∀ op ∈ ops, isWriteVia t op = true) →
      (∃ tx2, (runFrom s ops).txs t = some tx2 ∧ tx2.status = TxStatus.active) ∧
        (∀ k, (runFrom s ops).committed k = s.committed k) := by
  induction ops with
  | nil => intro s t tx h hst _; exact ⟨⟨tx, h, hst⟩, fun k => rfl⟩
  | cons op ops ih =>
    intro s t tx h hst hall
    have hop := hall op (List.mem_cons_self op ops)
    have hrest : ∀ op2 ∈ ops, isWriteVia t op2 = true :=
      fun op2 hm => hall op2 (List.mem_cons_of_mem op hm)
    cases op with
    | txPutO u k2 v =>
      have hu : u = t := by simpa [isWriteVia] using hop
      subst hu
      have hs1 : (step s (DBOp.txPutO u k2 v)).txs u =
          some { tx with writeSet := tx.writeSet ++ [(k2, some v)] } := by
        simp [step, txPut, h, hst, updTx]
      have hc1 : ∀ k, (step s (DBOp.txPutO u k2 v)).committed k = s.committed k := by
        intro k
        simp [step, txPut, h, hst]
      have hrec := ih (step s (DBOp.txPutO u k2 v)) u _ hs1 hst hrest
      exact ⟨hrec.1, fun k => (hrec.2 k).trans (hc1 k)⟩
    | txDelO u k2 =>
      have hu : u = t := by simpa [isWriteVia] using hop
      subst hu
      cases hv : txVisible s tx k2 with
      | none =>
        have hs1 : (step s (DBOp.txDelO u k2)).txs u =
            some { tx with readSet := k2 :: tx.readSet } := by
          simp [step, txDel, h, hst, hv, updTx]
        have hc1 : ∀ k, (step s (DBOp.txDelO u k2)).committed k = s.committed k := by
          intro k
          simp [step, txDel, h, hst, hv]
        have hrec := ih (step s (DBOp.txDelO u k2)) u _ hs1 hst hrest
        exact ⟨hrec.1, fun k => (hrec.2 k).trans (hc1 k)⟩
      | some v0 =>
        have hs1 : (step s (DBOp.txDelO u k2)).txs u =
            some { tx with readSet := k2 :: tx.readSet, writeSet := tx.writeSet ++ [(k2, none)] } := by
          simp [step, txDel, h, hst, hv, updTx]
        have hc1 : ∀ k, (step s (DBOp.txDelO u k2)).committed k = s.committed k := by
          intro k
          simp [step, txDel, h, hst, hv]
        have hrec := ih (step s (DBOp.txDelO u k2)) u _ hs1 hst hrest
        exact ⟨hrec.1, fun k => (hrec.2 k).trans (hc1 k)⟩
    | putO k2 v => simp [isWriteVia] at hop
    | getO k2 => simp [isWriteVia] at hop
    | delO k2 => simp [isWriteVia] at hop
    | beginO iso => simp [isWriteVia] at hop
    | txGetO u k2 => simp [isWriteVia] at hop
    | commitO u => simp [isWriteVia] at hop
    | rollbackO u => simp [isWriteVia] at hop
    | crashCommitO u => simp [isWriteVia] at hop
    | ckptO => simp [isWriteVia] at hop
    | ckptFailO => simp [isWriteVia] at hop

/-- Rollback of a valid active transaction succeeds and leaves the
committed store untouched. -/
theorem rollback_ok (s : DBState) (t : Nat) (tx : Tx)
    (h : s.txs t = some tx) (hst : tx.status = TxStatus.active) :
    (rollbackTx s t).1 = Except.ok () ∧
      ∀ k, ((rollbackTx s t).2).committed k = s.committed k := by
  simp [rollbackTx, h, hst]

/-- Claim C7: rollback always succeeds for a valid active transaction,
and after begin(t), any buffered writes via t, then rollback(t), the
committed key-value store is exactly what it was before begin(t). -/
theorem c7_rollback_discards_writes :
    (∀ (s : DBState) (t : Nat) (tx : Tx),
       s.txs t = some tx → tx.status = TxStatus.active →
       (rollbackTx s t).1 = Except.ok ()) ∧
    (∀ (s : DBState) (iso : Iso) (ops : List DBOp),
       (∀ op ∈ ops, isWriteVia s.nextTx op = true) →
       (rollbackTx (runFrom (beginTx s iso).2 ops) s.nextTx).1 = Except.ok () ∧
       ∀ k, ((rollbackTx (runFrom (beginTx s iso).2 ops) s.nextTx).2).committed k
         = s.committed k) := by
  constructor
  · intro s t tx h hst
    exact (rollback_ok s t tx h hst).1
  · intro s iso ops hall
    have hbtxs : ((beginTx s iso).2).txs s.nextTx =
        some ⟨iso, .active, s.clock, s.committed, [], []⟩ := by
      simp [beginTx, updTx]
    have hbcomm : ∀ k, ((beginTx s iso).2).committed k = s.committed k := fun k => rfl
    have hpres := txWrites_preserved ops ((beginTx s iso).2) s.nextTx _ hbtxs rfl hall
    obtain ⟨⟨tx2, htx2, hst2⟩, hcomm⟩ := hpres
    have hrb := rollback_ok (runFrom (beginTx s iso).2 ops) s.nextTx tx2 htx2 hst2
    exact ⟨hrb.1, fun k => ((hrb.2 k).trans (hcomm k)).trans (hbcomm k)⟩

/-- Witness for claim C7: beginning a transaction over a store holding
[1] := [2], buffering a put and a delete of [1] through it, then
rolling back, leaves key [1] exactly as before. -/
theorem c7_rollback_discards_writes_witness :
    (∀ op ∈ [DBOp.txPutO 1 [1] [9], DBOp.txDelO 1 [1]], isWriteVia rbScenario.nextTx op = true) ∧
    (rollbackTx (runFrom (beginTx rbScenario Iso.serializable).2
        [DBOp.txPutO 1 [1] [9], DBOp.txDelO 1 [1]]) rbScenario.nextTx).1 = Except.ok () ∧
    ((rollbackTx (runFrom (beginTx rbScenario Iso.serializable).2
        [DBOp.txPutO 1 [1] [9], DBOp.txDelO 1 [1]]) rbScenario.nextTx).2).committed [1] =
      rbScenario.committed [1] := by
  have h := c7_rollback_discards_writes.2 rbScenario Iso.serializable
    [DBOp.txPutO 1 [1] [9], DBOp.txDelO 1 [1]] (by decide)
  exact ⟨by decide, h.1, h.2 [1]⟩

/-- Extracting a frame shortens the list by exactly one. -/
theorem extractF_some_length (pred : BufFrame → Bool) :
    ∀ (l : List BufFrame) (f : BufFrame) (rest : List BufFrame),
      extractF pred l = some (f, rest) → l.length = rest.length + 1 := by
  intro l
  induction l with
  | nil => intro f rest h; simp [extractF] at h
  | cons g gs ih =>
    intro f rest h
    by_cases hp : pred g
    · simp [extractF, hp] at h
      simp [← h.2]
    · simp only [extractF, hp, if_false] at h
      cases he : extractF pred gs with
      | none => rw [he] at h; simp at h
      | some pr =>
        rw [he] at h
        simp at h
        have hgs := ih pr.1 pr.2 (by rw [he])
        simp [← h.2, List.length_cons, hgs]

/-- When extraction finds nothing, no frame satisfies the
predicate. -/
theorem extractF_none_all (pred : BufFrame → Bool) :
    ∀ (l : List BufFrame), extractF pred l = none → ∀ f ∈ l, pred f = false := by
  intro l
  induction l with
  | nil => intro _ f hf; simp at hf
  | cons g gs ih =>
    intro h f hf
    by_cases hp : pred g
    · simp [extractF, hp] at h
    · cases he : extractF pred gs with
      | none =>
        rcases List.mem_cons.mp hf with hfg | hfgs
        · rw [hfg]; exact Bool.eq_false_iff.mpr hp
        · exact ih he f hfgs
      | some pr => simp [extractF, hp, he] at h

/-- Buffer-pool steps never change the configured capacity. -/
theorem stepBuf_capacity (b : BufPool) (op : BufOp) :
    (stepBuf b op).capacity = b.capacity := by
  cases op with
  | fetchB p =>
    show (fetch b p).2.capacity = b.capacity
    cases he : extractF (fun f => f.pageNo == p) b.frames with
    | some pr => simp [fetch, he]
    | none =>
      by_cases hlen : b.frames.length < b.capacity
      · simp [fetch, he, hlen]
      · cases hv : extractF (fun f => f.pinCount == 0) b.frames.reverse with
        | some pr => simp [fetch, he, hlen, hv]
        | none => simp [fetch, he, hlen, hv]
  | unpinB p d => rfl

/-- The frame table never exceeds the configured capacity. -/
theorem stepBuf_frames_le (b : BufPool) (op : BufOp) (hinv : b.frames.length ≤ b.capacity) :
    (stepBuf b op).frames.length ≤ b.capacity := by
  cases op with
  | fetchB p =>
    show (fetch b p).2.frames.length ≤ b.capacity
    cases he : extractF (fun f => f.pageNo == p) b.frames with
    | some pr =>
      have hlen := extractF_some_length _ b.frames pr.1 pr.2 (by rw [he])
      simp [fetch, he]
      omega
    | none =>
      by_cases hlen : b.frames.length < b.capacity
      · simp [fetch, he, hlen]
        omega
      · cases hv : extractF (fun f => f.pinCount == 0) b.frames.reverse with
        | some pr =>
          have hlen2 := extractF_some_length _ b.frames.reverse pr.1 pr.2 (by rw [hv])
          rw [List.length_reverse] at hlen2
          simp [fetch, he, hlen, hv]
          omega
        | none => simp [fetch, he, hlen, hv]; exact hinv
  | unpinB p d =>
    show (unpin b p d).frames.length ≤ b.capacity
    simp [unpin]
    exact hinv

/-- Every reachable buffer pool holds at most capacity pages. -/
theorem runBuf_frames_le (c : Nat) (ops : List BufOp) :
    (runBuf c ops).frames.length ≤ (runBuf c ops).capacity := by
  rw [runBuf]
  have hgen : ∀ (l : List BufOp) (b : BufPool), b.frames.length ≤ b.capacity →
      (l.foldl stepBuf b).frames.length ≤ (l.foldl stepBuf b).capacity := by
    intro l
    induction l with
    | nil => intro b hb; exact hb
    | cons op l2 ih =>
      intro b hb
      rw [List.foldl_cons]
      refine ih (stepBuf b op) ?_
      rw [stepBuf_capacity]
      exact stepBuf_frames_le b op hb
  exact hgen ops (initBuf c) (by simp [initBuf])

/-- Every fetch call increments exactly one of the hit and miss
counters. -/
theorem stepBuf_counters_fetch (b : BufPool) (p : Nat) :
    (stepBuf b (BufOp.fetchB p)).cache_hits + (stepBuf b (BufOp.fetchB p)).cache_misses =
      b.cache_hits + b.cache_misses + 1 := by
  show (fetch b p).2.cache_hits + (fetch b p).2.cache_misses = _
  cases he : extractF (fun f => f.pageNo == p) b.frames with
  | some pr => simp [fetch, he]; omega
  | none =>
    by_cases hlen : b.frames.length < b.capacity
    · simp [fetch, he, hlen]; omega
    · cases hv : extractF (fun f => f.pinCount == 0) b.frames.reverse with
      | some pr => simp [fetch, he, hlen, hv]; omega
      | none => simp [fetch, he, hlen, hv]; omega

/-- Hits plus misses grow by exactly the number of fetch calls. -/
theorem counters_eq_fetches (ops : List BufOp) :
    ∀ b : BufPool, (ops.foldl stepBuf b).cache_hits + (ops.foldl stepBuf b).cache_misses =
      b.cache_hits + b.cache_misses + countFetch ops := by
  induction ops with
  | nil => intro b; simp [countFetch]
  | cons op ops ih =>
    intro b
    rw [List.foldl_cons]
    rw [ih (stepBuf b op)]
    cases op with
    | fetchB p =>
      rw [stepBuf_counters_fetch]
      simp [countFetch, List.countP_cons]
      omega
    | unpinB p d =>
      have h1 : (stepBuf b (BufOp.unpinB p d)).cache_hits = b.cache_hits := rfl
      have h2 : (stepBuf b (BufOp.unpinB p d)).cache_misses = b.cache_misses := rfl
      rw [h1, h2]
      simp [countFetch, List.countP_cons]

/-- The eviction counter moves only on a fetch of a page not in the
buffer while the pool is exactly full. -/
theorem evict_only_full (b : BufPool) (op : BufOp) (hinv : b.frames.length ≤ b.capacity)
    (hev : (stepBuf b op).evictions ≠ b.evictions) :
    ∃ p, op = BufOp.fetchB p ∧
      (∀ f ∈ b.frames, (f.pageNo == p) = false) ∧
      b.frames.length = b.capacity := by
  cases op with
  | unpinB p d => exact absurd rfl hev
  | fetchB p =>
    refine ⟨p, rfl, ?_, ?_⟩
    all_goals {
      cases he : extractF (fun f => f.pageNo == p) b.frames with
      | some pr =>
        exact absurd (by show (fetch b p).2.evictions = _; simp [fetch, he]) hev
      | none =>
        by_cases hlen : b.frames.length < b.capacity
        · exact absurd (by show (fetch b p).2.evictions = _; simp [fetch, he, hlen]) hev
        · cases hv : extractF (fun f => f.pinCount == 0) b.frames.reverse with
          | some pr =>
            first
            | exact extractF_none_all _ b.frames he
            | omega
          | none =>
            exact absurd (by show (fetch b p).2.evictions = _; simp [fetch, he, hlen, hv]) hev
    }

/-- Claim C5: in every reachable buffer-pool state, cache_hits plus
cache_misses equals the number of fetch calls performed so far, the
snapshot's hit ratio equals hits / (hits + misses), and the eviction
counter moves only on a fetch of a page not in the buffer while
pages_in_buffer equals capacity. -/
theorem c5_buffer_stats_invariants :
    (∀ (c : Nat) (ops : List BufOp),
       (runBuf c ops).cache_hits + (runBuf c ops).cache_misses = countFetch ops) ∧
    (∀ b : BufPool,
       (lowkeydb_get_buffer_stats b).hitRate =
         ((lowkeydb_get_buffer_stats b).cache_hits : Rat) /
           (((lowkeydb_get_buffer_stats b).cache_hits : Rat) +
             ((lowkeydb_get_buffer_stats b).cache_misses : Rat))) ∧
    (∀ (c : Nat) (ops : List BufOp) (op : BufOp),
       (stepBuf (runBuf c ops) op).evictions ≠ (runBuf c ops).evictions →
       ∃ p, op = BufOp.fetchB p ∧
         (∀ f ∈ (runBuf c ops).frames, (f.pageNo == p) = false) ∧
         (lowkeydb_get_buffer_stats (runBuf c ops)).pages_in_buffer =
           (lowkeydb_get_buffer_stats (runBuf c ops)).capacity) := by
  refine ⟨?_, fun b => rfl, ?_⟩
  · intro c ops
    have h := counters_eq_fetches ops (initBuf c)
    simpa [runBuf, initBuf] using h
  · intro c ops op hev
    exact evict_only_full (runBuf c ops) op (runBuf_frames_le c ops) hev

/-- Witness for claim C5: a capacity-1 pool holding page 1 (unpinned)
evicts exactly when page 2 is fetched. -/
theorem c5_buffer_stats_invariants_witness :
    (stepBuf (runBuf 1 [BufOp.fetchB 1, BufOp.unpinB 1 false]) (BufOp.fetchB 2)).evictions ≠
      (runBuf 1 [BufOp.fetchB 1, BufOp.unpinB 1 false]).evictions ∧
    (∃ p, BufOp.fetchB 2 = BufOp.fetchB p ∧
      (∀ f ∈ (runBuf 1 [BufOp.fetchB 1, BufOp.unpinB 1 false]).frames, (f.pageNo == p) = false) ∧
      (lowkeydb_get_buffer_stats
          (runBuf 1 [BufOp.fetchB 1, BufOp.unpinB 1 false])).pages_in_buffer =
        (lowkeydb_get_buffer_stats (runBuf 1 [BufOp.fetchB 1, BufOp.unpinB 1 false])).capacity) :=
  ⟨by decide,
   c5_buffer_stats_invariants.2.2 1 [BufOp.fetchB 1, BufOp.unpinB 1 false] (BufOp.fetchB 2)
     (by decide)⟩

/-- Claim C6: a checkpoint whose dirty-page flush hits an I/O failure
reports the error and leaves the prior checkpoint state fully intact
(the WAL is not truncated, nothing is archived or deleted,
checkpoints_performed is unchanged); the WAL is truncated or archived
only by a call that succeeded, and only a successful call increments
checkpoints_performed. -/
theorem c6_checkpoint_failure_atomicity :
    (∀ s : DBState, checkpointOp true s = (Except.error LowkeyErr.ioErr, s)) ∧
    (∀ (s : DBState) (b : Bool),
       (((checkpointOp b s).2).wal ≠ s.wal ∨
        ((checkpointOp b s).2).archivedWals ≠ s.archivedWals ∨
        ((checkpointOp b s).2).ckptPerformed ≠ s.ckptPerformed) →
       b = false ∧ (checkpointOp b s).1 = Except.ok ()) ∧
    (∀ s : DBState, ((checkpointOp false s).2).ckptPerformed = s.ckptPerformed + 1) := by
  refine ⟨fun s => rfl, ?_, fun s => rfl⟩
  intro s b hchange
  cases b with
  | false => exact ⟨rfl, rfl⟩
  | true =>
    exfalso
    rcases hchange with h | h | h <;> exact h rfl

/-- Witness for claim C6: on a state with a nonempty WAL, the
successful checkpoint is the one that truncates the WAL, and the
failing one changes nothing. -/
theorem c6_checkpoint_failure_atomicity_witness :
    ((checkpointOp false rbScenario).2).wal ≠ rbScenario.wal ∧
    (false = false ∧ (checkpointOp false rbScenario).1 = Except.ok ()) ∧
    checkpointOp true rbScenario = (Except.error LowkeyErr.ioErr, rbScenario) :=
  ⟨by decide,
   c6_checkpoint_failure_atomicity.2.1 rbScenario false (Or.inl (by decide)),
   c6_checkpoint_failure_atomicity.1 rbScenario⟩

theorem recoverStore_eq (s : DBState) :
    recoverStore s = replayWith (committedIn (postWal s)) s.dataFile (postWal s) := rfl

theorem afterLastMarker_append (l : List WalRecord) (r : WalRecord) :
    afterLastMarker (l ++ [r]) =
      match r with
      | .checkpointR => []
      | _ => afterLastMarker l ++ [r] := by
  rw [afterLastMarker, List.foldl_append]
  cases r <;> rfl

theorem afterLastMarker_append_nm (m : List WalRecord) :
    ∀ l : List WalRecord, (∀ r ∈ m, r ≠ WalRecord.checkpointR) →
      afterLastMarker (l ++ m) = afterLastMarker l ++ m := by
  induction m with
  | nil => intro l _; simp
  | cons r m2 ih =>
    intro l hm
    have hr : r ≠ WalRecord.checkpointR := hm r (List.mem_cons_self r m2)
    have hm2 : ∀ r2 ∈ m2, r2 ≠ WalRecord.checkpointR :=
      fun r2 h2 => hm r2 (List.mem_cons_of_mem r h2)
    have hsplit : l ++ r :: m2 = (l ++ [r]) ++ m2 := by simp
    rw [hsplit, ih (l ++ [r]) hm2, afterLastMarker_append]
    cases r with
    | checkpointR => exact absurd rfl hr
    | beginR t => simp
    | putR t k v => simp
    | delR t k => simp
    | commitR t => simp
    | rollbackR t => simp

theorem committedIn_append (l m : List WalRecord) (t : Nat) :
    committedIn (l ++ m) t = (committedIn l t || committedIn m t) := by
  simp [committedIn, List.any_append]

theorem committedIn_eq_false (t : Nat) (l : List WalRecord)
    (h : ∀ r ∈ l, isCommitOf t r = false) : committedIn l t = false := by
  simp only [committedIn, List.any_eq_false]
  intro r hr
  simp [h r hr]

theorem replayWith_append (cset : Nat → Bool) (base : Store) (l m : List WalRecord) :
    replayWith cset base (l ++ m) = replayWith cset (replayWith cset base l) m := by
  simp [replayWith, List.foldl_append]

theorem replayWith_inert (cset : Nat → Bool) (m : List WalRecord)
    (h : ∀ r ∈ m, ∀ u, isDataOf u r = true → cset u = false) :
    ∀ st, replayWith cset st m = st := by
  induction m with
  | nil => intro st; rfl
  | cons r m2 ih =>
    intro st
    have hr := h r (List.mem_cons_self r m2)
    have hm2 : ∀ r2 ∈ m2, ∀ u, isDataOf u r2 = true → cset u = false :=
      fun r2 h2 u hu => h r2 (List.mem_cons_of_mem r h2) u hu
    have hhead : replayRec cset st r = st := by
      cases r with
      | putR u k v =>
        have hcu : cset u = false := hr u (by simp [isDataOf])
        simp [replayRec, hcu]
      | delR u k =>
        have hcu : cset u = false := hr u (by simp [isDataOf])
        simp [replayRec, hcu]
      | beginR u => rfl
      | commitR u => rfl
      | rollbackR u => rfl
      | checkpointR => rfl
    show replayWith cset (replayRec cset st r) m2 = st
    rw [hhead, ih hm2]

theorem replayWith_congr (cset cset2 : Nat → Bool) (l : List WalRecord)
    (hagree : ∀ r ∈ l, ∀ u, isDataOf u r = true → cset u = cset2 u) :
    ∀ st, replayWith cset st l = replayWith cset2 st l := by
  induction l with
  | nil => intro st; rfl
  | cons r l2 ih =>
    intro st
    have hr := hagree r (List.mem_cons_self r l2)
    have hl2 : ∀ r2 ∈ l2, ∀ u, isDataOf u r2 = true → cset u = cset2 u :=
      fun r2 h2 u hu => hagree r2 (List.mem_cons_of_mem r h2) u hu
    have hhead : replayRec cset st r = replayRec cset2 st r := by
      cases r with
      | putR u k v =>
        have hcu : cset u = cset2 u := hr u (by simp [isDataOf])
        simp [replayRec, hcu]
      | delR u k =>
        have hcu : cset u = cset2 u := hr u (by simp [isDataOf])
        simp [replayRec, hcu]
      | beginR u => rfl
      | commitR u => rfl
      | rollbackR u => rfl
      | checkpointR => rfl
    show replayWith cset (replayRec cset st r) l2 = replayWith cset2 (replayRec cset2 st r) l2
    rw [hhead, ih hl2]

theorem applyWrites_base_congr (ws : List (Key × Option Val)) :
    ∀ (b b2 : Store), (∀ k, b k = b2 k) → ∀ k, applyWrites b ws k = applyWrites b2 ws k := by
  induction ws with
  | nil => intro b b2 hb k; exact hb k
  | cons kv ws2 ih =>
    intro b b2 hb k
    show applyWrites (fun k2 => if k2 = kv.1 then kv.2 else b k2) ws2 k = _
    refine ih _ _ ?_ k
    intro k2
    by_cases hk2 : k2 = kv.1
    · simp [hk2]
    · simp [hk2, hb k2]

theorem replayWith_data_committed (cset : Nat → Bool) (t : Nat) (hct : cset t = true) :
    ∀ (ws : List (Key × Option Val)) (st : Store) (k : Key),
      replayWith cset st (walPutRecords t ws) k = applyWrites st ws k := by
  intro ws
  induction ws with
  | nil => intro st k; rfl
  | cons kv ws2 ih =>
    intro st k
    cases hkv : kv.2 with
    | some v =>
      show replayWith cset (replayRec cset st (match kv.2 with
        | some v => WalRecord.putR t kv.1 v
        | none => WalRecord.delR t kv.1)) (walPutRecords t ws2) k = _
      rw [hkv]
      have hrec : replayRec cset st (WalRecord.putR t kv.1 v) =
          fun kk => if kk = kv.1 then some v else st kk := by
        simp [replayRec, hct]
      rw [hrec]
      have happ : applyWrites st (kv :: ws2) k =
          applyWrites (fun kk => if kk = kv.1 then kv.2 else st kk) ws2 k := rfl
      rw [happ, hkv]
      exact ih _ k
    | none =>
      show replayWith cset (replayRec cset st (match kv.2 with
        | some v => WalRecord.putR t kv.1 v
        | none => WalRecord.delR t kv.1)) (walPutRecords t ws2) k = _
      rw [hkv]
      have hrec : replayRec cset st (WalRecord.delR t kv.1) =
          fun kk => if kk = kv.1 then none else st kk := by
        simp [replayRec, hct]
      rw [hrec]
      have happ : applyWrites st (kv :: ws2) k =
          applyWrites (fun kk => if kk = kv.1 then kv.2 else st kk) ws2 k := rfl
      rw [happ, hkv]
      exact ih _ k

theorem walPutRecords_no_marker (t : Nat) (ws : List (Key × Option Val)) :
    ∀ r ∈ walPutRecords t ws, r ≠ WalRecord.checkpointR := by
  intro r hr
  obtain ⟨kv, _, hkv⟩ := List.mem_map.mp hr
  cases h2 : kv.2 with
  | some v => rw [h2] at hkv; rw [← hkv]; simp
  | none => rw [h2] at hkv; rw [← hkv]; simp

theorem walPutRecords_no_commit (t u : Nat) (ws : List (Key × Option Val)) :
    ∀ r ∈ walPutRecords t ws, isCommitOf u r = false := by
  intro r hr
  obtain ⟨kv, _, hkv⟩ := List.mem_map.mp hr
  cases h2 : kv.2 with
  | some v => rw [h2] at hkv; rw [← hkv]; rfl
  | none => rw [h2] at hkv; rw [← hkv]; rfl

theorem walPutRecords_data_of (t u : Nat) (ws : List (Key × Option Val)) (hne : u ≠ t) :
    ∀ r ∈ walPutRecords t ws, isDataOf u r = false := by
  intro r hr
  obtain ⟨kv, _, hkv⟩ := List.mem_map.mp hr
  cases h2 : kv.2 with
  | some v =>
    rw [h2] at hkv; rw [← hkv]
    simp [isDataOf]
    exact fun hc => hne hc.symm
  | none =>
    rw [h2] at hkv; rw [← hkv]
    simp [isDataOf]
    exact fun hc => hne hc.symm



theorem recover_append_inert (s : DBState) (m : List WalRecord)
    (hnm : ∀ r ∈ m, r ≠ WalRecord.checkpointR)
    (hnc : ∀ u, committedIn m u = false)
    (hdata : ∀ r ∈ m, ∀ u, isDataOf u r = true → committedIn (postWal s) u = false)
    (hI1 : ∀ k, recoverStore s k = s.committed k) :
    ∀ k, replayWith (committedIn (afterLastMarker (s.wal ++ m))) s.dataFile
      (afterLastMarker (s.wal ++ m)) k = s.committed k := by
  intro k
  have hpost : afterLastMarker (s.wal ++ m) = postWal s ++ m :=
    afterLastMarker_append_nm m s.wal hnm
  rw [hpost]
  have hcset : ∀ u, committedIn (postWal s ++ m) u = committedIn (postWal s) u := by
    intro u
    rw [committedIn_append, hnc u]
    simp
  have h1 : replayWith (committedIn (postWal s ++ m)) s.dataFile (postWal s ++ m) =
      replayWith (committedIn (postWal s ++ m))
        (replayWith (committedIn (postWal s ++ m)) s.dataFile (postWal s)) m :=
    replayWith_append _ _ _ _
  have h2 : ∀ st, replayWith (committedIn (postWal s ++ m)) st m = st := by
    refine replayWith_inert _ m ?_
    intro r hr u hu
    rw [committedIn_append, hnc u, hdata r hr u hu]
    rfl
  have h3 : replayWith (committedIn (postWal s ++ m)) s.dataFile (postWal s) =
      replayWith (committedIn (postWal s)) s.dataFile (postWal s) := by
    refine replayWith_congr _ _ (postWal s) ?_ s.dataFile
    intro r _ u _
    exact hcset u
  rw [h1, h2, h3]
  exact hI1 k

theorem DBInv_begin (s : DBState) (iso : Iso) (hInv : DBInv s) : DBInv (beginTx s iso).2 := by
  obtain ⟨hI1, hI2, hI3⟩ := hInv
  have hpost : postWal (beginTx s iso).2 = postWal s ++ [WalRecord.beginR s.nextTx] :=
    afterLastMarker_append_nm [WalRecord.beginR s.nextTx] s.wal (by simp)
  refine ⟨?_, ?_, ?_⟩
  · intro k
    exact recover_append_inert s [WalRecord.beginR s.nextTx] (by simp)
      (fun u => rfl)
      (by intro r hr u hu; simp at hr; rw [hr] at hu; simp [isDataOf] at hu)
      hI1 k
  · intro t tx htx hact r hr
    rw [hpost] at hr
    have htx2 : updTx s.txs s.nextTx
        (some ⟨iso, .active, s.clock, s.committed, [], []⟩) t = some tx := htx
    rcases List.mem_append.mp hr with hrp | hrb
    · by_cases hteq : t = s.nextTx
      · exact ((hI3 t (le_of_eq hteq.symm)).2) r hrp
      · rw [updTx_ne _ _ _ _ hteq] at htx2
        exact hI2 t tx htx2 hact r hrp
    · simp at hrb
      rw [hrb]
      exact ⟨rfl, rfl⟩
  · intro t hle
    have hb : ((beginTx s iso).2).nextTx = s.nextTx + 1 := rfl
    rw [hb] at hle
    have hle2 : s.nextTx ≤ t := by omega
    have hne : t ≠ s.nextTx := by omega
    constructor
    · show updTx s.txs s.nextTx _ t = none
      rw [updTx_ne _ _ _ _ hne]
      exact (hI3 t hle2).1
    · intro r hr
      rw [hpost] at hr
      rcases List.mem_append.mp hr with hrp | hrb
      · exact (hI3 t hle2).2 r hrp
      · simp at hrb
        rw [hrb]
        exact ⟨rfl, rfl⟩



theorem DBInv_updTx (s : DBState) (u : Nat) (tx tx2 : Tx)
    (h : s.txs u = some tx)
    (hstat : tx2.status = TxStatus.active → tx.status = TxStatus.active)
    (hInv : DBInv s) :
    DBInv { s with txs := updTx s.txs u (some tx2) } := by
  obtain ⟨hI1, hI2, hI3⟩ := hInv
  have hult : u < s.nextTx := by
    by_contra hge
    have := (hI3 u (by omega)).1
    rw [this] at h
    exact absurd h (by simp)
  refine ⟨hI1, ?_, ?_⟩
  · intro t tx3 htx3 hact
    have htx3b : updTx s.txs u (some tx2) t = some tx3 := htx3
    show noTxRecords t (postWal s)
    by_cases hteq : t = u
    · subst hteq
      rw [updTx, if_pos rfl] at htx3b
      have htx32 : tx3 = tx2 := (Option.some.inj htx3b).symm
      rw [htx32] at hact
      exact hI2 t tx h (hstat hact)
    · rw [updTx_ne _ _ _ _ hteq] at htx3b
      exact hI2 t tx3 htx3b hact
  · intro t hle
    have hle2 : s.nextTx ≤ t := hle
    have hne : t ≠ u := by omega
    constructor
    · show updTx s.txs u (some tx2) t = none
      rw [updTx_ne _ _ _ _ hne]
      exact (hI3 t hle2).1
    · show noTxRecords t (postWal s)
      exact (hI3 t hle2).2

theorem DBInv_txPut (s : DBState) (u : Nat) (k : Key) (v : Val) (hInv : DBInv s) :
    DBInv (txPut s u k v).2 := by
  cases h : s.txs u with
  | none => simpa [txPut, h] using hInv
  | some tx =>
    by_cases hst : tx.status = TxStatus.active
    · have heq : (txPut s u k v).2 =
          { s with txs := updTx s.txs u (some { tx with writeSet := tx.writeSet ++ [(k, some v)] }) } := by
        simp [txPut, h, hst]
      rw [heq]
      exact DBInv_updTx s u tx _ h (fun ha => ha) hInv
    · simpa [txPut, h, hst] using hInv

theorem DBInv_txGet (s : DBState) (u : Nat) (k : Key) (hInv : DBInv s) :
    DBInv (txGet s u k).2 := by
  cases h : s.txs u with
  | none => simpa [txGet, h] using hInv
  | some tx =>
    by_cases hst : tx.status = TxStatus.active
    · cases hv : txVisible s tx k with
      | some v0 =>
        have heq : (txGet s u k).2 =
            { s with txs := updTx s.txs u (some { tx with readSet := k :: tx.readSet }) } := by
          simp [txGet, h, hst, hv]
        rw [heq]
        exact DBInv_updTx s u tx _ h (fun ha => ha) hInv
      | none =>
        have heq : (txGet s u k).2 =
            { s with txs := updTx s.txs u (some { tx with readSet := k :: tx.readSet }) } := by
          simp [txGet, h, hst, hv]
        rw [heq]
        exact DBInv_updTx s u tx _ h (fun ha => ha) hInv
    · simpa [txGet, h, hst] using hInv

theorem DBInv_txDel (s : DBState) (u : Nat) (k : Key) (hInv : DBInv s) :
    DBInv (txDel s u k).2 := by
  cases h : s.txs u with
  | none => simpa [txDel, h] using hInv
  | some tx =>
    by_cases hst : tx.status = TxStatus.active
    · cases hv : txVisible s tx k with
      | some v0 =>
        have heq : (txDel s u k).2 =
            { s with txs := updTx s.txs u (some { tx with readSet := k :: tx.readSet, writeSet := tx.writeSet ++ [(k, none)] }) } := by
          simp [txDel, h, hst, hv]
        rw [heq]
        exact DBInv_updTx s u tx _ h (fun ha => ha) hInv
      | none =>
        have heq : (txDel s u k).2 =
            { s with txs := updTx s.txs u (some { tx with readSet := k :: tx.readSet }) } := by
          simp [txDel, h, hst, hv]
        rw [heq]
        exact DBInv_updTx s u tx _ h (fun ha => ha) hInv
    · simpa [txDel, h, hst] using hInv



theorem append_records_no_tx (t u : Nat) (ws : List (Key × Option Val)) (hne : u ≠ t) :
    ∀ r ∈ walPutRecords t ws ++ [WalRecord.commitR t],
      isDataOf u r = false ∧ isCommitOf u r = false := by
  intro r hr
  rcases List.mem_append.mp hr with hrd | hrc
  · exact ⟨walPutRecords_data_of t u ws hne r hrd, walPutRecords_no_commit t u ws r hrd⟩
  · simp at hrc
    rw [hrc]
    refine ⟨rfl, ?_⟩
    simp [isCommitOf]
    exact fun hc => hne hc.symm

theorem DBInv_commit_success (s : DBState) (t : Nat) (tx : Tx)
    (h : s.txs t = some tx) (hst : tx.status = TxStatus.active)
    (hInv : DBInv s) :
    DBInv { s with
      committed := applyWrites s.committed tx.writeSet
      txs := updTx s.txs t (some { tx with status := .committed })
      lastCommit := bumpLast s.lastCommit tx.writeSet s.clock
      clock := s.clock + 1
      liveKeys := updKeys s.liveKeys tx.writeSet
      wal := s.wal ++ walPutRecords t tx.writeSet ++ [WalRecord.commitR t] } := by
  obtain ⟨hI1, hI2, hI3⟩ := hInv
  have hnoT : noTxRecords t (postWal s) := hI2 t tx h hst
  have hult : t < s.nextTx := by
    by_contra hge
    have hn := (hI3 t (by omega)).1
    rw [hn] at h
    exact absurd h (by simp)
  have hm : ∀ r ∈ walPutRecords t tx.writeSet ++ [WalRecord.commitR t],
      r ≠ WalRecord.checkpointR := by
    intro r hr
    rcases List.mem_append.mp hr with hrd | hrc
    · exact walPutRecords_no_marker t tx.writeSet r hrd
    · simp at hrc; rw [hrc]; simp
  have hpost : afterLastMarker (s.wal ++ walPutRecords t tx.writeSet ++ [WalRecord.commitR t]) =
      postWal s ++ (walPutRecords t tx.writeSet ++ [WalRecord.commitR t]) := by
    rw [List.append_assoc]
    exact afterLastMarker_append_nm _ s.wal hm
  have hcIn : ∀ u, committedIn (walPutRecords t tx.writeSet ++ [WalRecord.commitR t]) u
      = (t == u) := by
    intro u
    rw [committedIn_append, committedIn_eq_false u _ (walPutRecords_no_commit t u tx.writeSet)]
    simp [committedIn, isCommitOf]
  have hcset2 : ∀ u,
      committedIn (postWal s ++ (walPutRecords t tx.writeSet ++ [WalRecord.commitR t])) u
      = (committedIn (postWal s) u || (t == u)) := by
    intro u
    rw [committedIn_append, hcIn u]
  have hcset2t :
      committedIn (postWal s ++ (walPutRecords t tx.writeSet ++ [WalRecord.commitR t])) t
      = true := by
    rw [hcset2]
    simp
  have hcsetne : ∀ u, u ≠ t →
      committedIn (postWal s ++ (walPutRecords t tx.writeSet ++ [WalRecord.commitR t])) u
      = committedIn (postWal s) u := by
    intro u hne
    rw [hcset2]
    have hbeq : (t == u) = false := by
      simp
      exact fun hc => hne hc.symm
    rw [hbeq]
    simp
  refine ⟨?_, ?_, ?_⟩
  · intro k
    show replayWith
        (committedIn (afterLastMarker (s.wal ++ walPutRecords t tx.writeSet ++ [WalRecord.commitR t])))
        s.dataFile
        (afterLastMarker (s.wal ++ walPutRecords t tx.writeSet ++ [WalRecord.commitR t])) k
      = applyWrites s.committed tx.writeSet k
    rw [hpost]
    rw [replayWith_append]
    have hinner : replayWith
        (committedIn (postWal s ++ (walPutRecords t tx.writeSet ++ [WalRecord.commitR t])))
        s.dataFile (postWal s) =
        replayWith (committedIn (postWal s)) s.dataFile (postWal s) := by
      refine replayWith_congr _ _ (postWal s) ?_ s.dataFile
      intro r hr u hu
      have hunet : u ≠ t := by
        intro hut
        rw [hut] at hu
        rw [(hnoT r hr).1] at hu
        exact absurd hu (by simp)
      exact hcsetne u hunet
    rw [hinner]
    rw [replayWith_append]
    have hcommit_inert : ∀ st : Store,
        replayWith
          (committedIn (postWal s ++ (walPutRecords t tx.writeSet ++ [WalRecord.commitR t])))
          st [WalRecord.commitR t] = st := fun st => rfl
    rw [hcommit_inert]
    rw [replayWith_data_committed _ t hcset2t]
    exact applyWrites_base_congr tx.writeSet _ _ hI1 k
  · intro u tx3 htx3 hact
    have htx3b : updTx s.txs t (some { tx with status := .committed }) u = some tx3 := htx3
    show noTxRecords u
      (afterLastMarker (s.wal ++ walPutRecords t tx.writeSet ++ [WalRecord.commitR t]))
    rw [hpost]
    by_cases hueq : u = t
    · subst hueq
      rw [updTx, if_pos rfl] at htx3b
      have htx32 : tx3 = { tx with status := .committed } := (Option.some.inj htx3b).symm
      rw [htx32] at hact
      exact absurd hact (by simp)
    · rw [updTx_ne _ _ _ _ hueq] at htx3b
      intro r hr
      rcases List.mem_append.mp hr with hrp | hrm
      · exact hI2 u tx3 htx3b hact r hrp
      · exact append_records_no_tx t u tx.writeSet hueq r hrm
  · intro u hle
    have hle2 : s.nextTx ≤ u := hle
    have hne : u ≠ t := by omega
    constructor
    · show updTx s.txs t (some { tx with status := .committed }) u = none
      rw [updTx_ne _ _ _ _ hne]
      exact (hI3 u hle2).1
    · show noTxRecords u
        (afterLastMarker (s.wal ++ walPutRecords t tx.writeSet ++ [WalRecord.commitR t]))
      rw [hpost]
      intro r hr
      rcases List.mem_append.mp hr with hrp | hrm
      · exact (hI3 u hle2).2 r hrp
      · exact append_records_no_tx t u tx.writeSet hne r hrm



theorem DBInv_commit (s : DBState) (u : Nat) (hInv : DBInv s) : DBInv (commitTx s u).2 := by
  cases h : s.txs u with
  | none => simpa [commitTx, h] using hInv
  | some tx =>
    by_cases hst : tx.status = TxStatus.active
    · by_cases hconf : tx.iso = Iso.serializable ∧ hasConflictB s tx = true
      · have heq : (commitTx s u).2 =
            { s with txs := updTx s.txs u (some { tx with status := .conflicted }) } := by
          simp [commitTx, h, hst, hconf]
        rw [heq]
        refine DBInv_updTx s u tx _ h ?_ hInv
        intro ha
        exact absurd ha (by simp)
      · have heq : (commitTx s u).2 =
            { s with
              committed := applyWrites s.committed tx.writeSet
              txs := updTx s.txs u (some { tx with status := .committed })
              lastCommit := bumpLast s.lastCommit tx.writeSet s.clock
              clock := s.clock + 1
              liveKeys := updKeys s.liveKeys tx.writeSet
              wal := s.wal ++ walPutRecords u tx.writeSet ++ [WalRecord.commitR u] } := by
          simp only [commitTx, h, hst, if_true, if_neg hconf]
        rw [heq]
        exact DBInv_commit_success s u tx h hst hInv
    · simpa [commitTx, h, hst] using hInv

theorem DBInv_rollback (s : DBState) (u : Nat) (hInv : DBInv s) : DBInv (rollbackTx s u).2 := by
  cases h : s.txs u with
  | none => simpa [rollbackTx, h] using hInv
  | some tx =>
    by_cases hst : tx.status = TxStatus.active
    · have heq : (rollbackTx s u).2 =
          { s with
            txs := updTx s.txs u (some { tx with status := .rolledBack, writeSet := [] })
            wal := s.wal ++ [WalRecord.rollbackR u] } := by
        simp [rollbackTx, h, hst]
      rw [heq]
      obtain ⟨hI1, hI2, hI3⟩ := hInv
      have hult : u < s.nextTx := by
        by_contra hge
        have hn := (hI3 u (by omega)).1
        rw [hn] at h
        exact absurd h (by simp)
      have hpost : afterLastMarker (s.wal ++ [WalRecord.rollbackR u]) =
          postWal s ++ [WalRecord.rollbackR u] :=
        afterLastMarker_append_nm [WalRecord.rollbackR u] s.wal (by simp)
      refine ⟨?_, ?_, ?_⟩
      · intro k
        exact recover_append_inert s [WalRecord.rollbackR u] (by simp)
          (fun u2 => rfl)
          (by intro r hr u2 hu; simp at hr; rw [hr] at hu; simp [isDataOf] at hu)
          hI1 k
      · intro t tx3 htx3 hact
        have htx3b : updTx s.txs u (some { tx with status := .rolledBack, writeSet := [] }) t
            = some tx3 := htx3
        show noTxRecords t (afterLastMarker (s.wal ++ [WalRecord.rollbackR u]))
        rw [hpost]
        intro r hr
        by_cases hteq : t = u
        · subst hteq
          rw [updTx, if_pos rfl] at htx3b
          have htx32 : tx3 = { tx with status := .rolledBack, writeSet := [] } :=
            (Option.some.inj htx3b).symm
          rw [htx32] at hact
          exact absurd hact (by simp)
        · rw [updTx_ne _ _ _ _ hteq] at htx3b
          rcases List.mem_append.mp hr with hrp | hrm
          · exact hI2 t tx3 htx3b hact r hrp
          · simp at hrm; rw [hrm]; exact ⟨rfl, rfl⟩
      · intro t hle
        have hle2 : s.nextTx ≤ t := hle
        have hne : t ≠ u := by omega
        constructor
        · show updTx s.txs u (some { tx with status := .rolledBack, writeSet := [] }) t = none
          rw [updTx_ne _ _ _ _ hne]
          exact (hI3 t hle2).1
        · show noTxRecords t (afterLastMarker (s.wal ++ [WalRecord.rollbackR u]))
          rw [hpost]
          intro r hr
          rcases List.mem_append.mp hr with hrp | hrm
          · exact (hI3 t hle2).2 r hrp
          · simp at hrm; rw [hrm]; exact ⟨rfl, rfl⟩
    · simpa [rollbackTx, h, hst] using hInv

theorem DBInv_crash (s : DBState) (u : Nat) (hInv : DBInv s) : DBInv (commitCrash s u) := by
  cases h : s.txs u with
  | none => simpa [commitCrash, h] using hInv
  | some tx =>
    by_cases hst : tx.status = TxStatus.active
    · have heq : commitCrash s u =
          { s with
            txs := updTx s.txs u (some { tx with status := .rolledBack })
            wal := s.wal ++ walPutRecords u tx.writeSet } := by
        simp [commitCrash, h, hst]
      rw [heq]
      obtain ⟨hI1, hI2, hI3⟩ := hInv
      have hnoT : noTxRecords u (postWal s) := hI2 u tx h hst
      have hult : u < s.nextTx := by
        by_contra hge
        have hn := (hI3 u (by omega)).1
        rw [hn] at h
        exact absurd h (by simp)
      have hpost : afterLastMarker (s.wal ++ walPutRecords u tx.writeSet) =
          postWal s ++ walPutRecords u tx.writeSet :=
        afterLastMarker_append_nm _ s.wal (walPutRecords_no_marker u tx.writeSet)
      refine ⟨?_, ?_, ?_⟩
      · intro k
        refine recover_append_inert s (walPutRecords u tx.writeSet)
          (walPutRecords_no_marker u tx.writeSet)
          (fun u2 => committedIn_eq_false u2 _ (walPutRecords_no_commit u u2 tx.writeSet))
          ?_ hI1 k
        intro r hr u2 hu
        have hu2 : u2 = u := by
          by_contra hne
          rw [walPutRecords_data_of u u2 tx.writeSet hne r hr] at hu
          exact absurd hu (by simp)
        rw [hu2]
        refine committedIn_eq_false u _ ?_
        intro r2 hr2
        exact (hnoT r2 hr2).2
      · intro t tx3 htx3 hact
        have htx3b : updTx s.txs u (some { tx with status := .rolledBack }) t = some tx3 := htx3
        show noTxRecords t (afterLastMarker (s.wal ++ walPutRecords u tx.writeSet))
        rw [hpost]
        intro r hr
        by_cases hteq : t = u
        · subst hteq
          rw [updTx, if_pos rfl] at htx3b
          have htx32 : tx3 = { tx with status := .rolledBack } := (Option.some.inj htx3b).symm
          rw [htx32] at hact
          exact absurd hact (by simp)
        · rw [updTx_ne _ _ _ _ hteq] at htx3b
          rcases List.mem_append.mp hr with hrp | hrm
          · exact hI2 t tx3 htx3b hact r hrp
          · exact ⟨walPutRecords_data_of u t tx.writeSet hteq r hrm,
              walPutRecords_no_commit u t tx.writeSet r hrm⟩
      · intro t hle
        have hle2 : s.nextTx ≤ t := hle
        have hne : t ≠ u := by omega
        constructor
        · show updTx s.txs u (some { tx with status := .rolledBack }) t = none
          rw [updTx_ne _ _ _ _ hne]
          exact (hI3 t hle2).1
        · show noTxRecords t (afterLastMarker (s.wal ++ walPutRecords u tx.writeSet))
          rw [hpost]
          intro r hr
          rcases List.mem_append.mp hr with hrp | hrm
          · exact (hI3 t hle2).2 r hrp
          · exact ⟨walPutRecords_data_of u t tx.writeSet hne r hrm,
              walPutRecords_no_commit u t tx.writeSet r hrm⟩
    · simpa [commitCrash, h, hst] using hInv

theorem DBInv_checkpoint (s : DBState) (b : Bool) (hInv : DBInv s) :
    DBInv (checkpointOp b s).2 := by
  cases b with
  | true => simpa [checkpointOp] using hInv
  | false =>
    refine ⟨?_, ?_, ?_⟩
    · intro k
      show replayWith (committedIn (afterLastMarker [WalRecord.checkpointR]))
        s.committed (afterLastMarker [WalRecord.checkpointR]) k = s.committed k
      rfl
    · intro t tx htx hact r hr
      have hempty : afterLastMarker [WalRecord.checkpointR] = [] := rfl
      rw [show postWal (checkpointOp false s).2 = ([] : List WalRecord) from rfl] at hr
      exact absurd hr (by simp)
    · intro t hle
      refine ⟨(hInv.2.2 t hle).1, ?_⟩
      intro r hr
      rw [show postWal (checkpointOp false s).2 = ([] : List WalRecord) from rfl] at hr
      exact absurd hr (by simp)



theorem DBInv_step (s : DBState) (op : DBOp) (hInv : DBInv s) : DBInv (step s op) := by
  cases op with
  | putO k v =>
    show DBInv (putOp s k v).2
    simp only [putOp]
    split
    · exact DBInv_commit _ _ (DBInv_txPut _ _ _ _ (DBInv_begin _ _ hInv))
    · exact DBInv_txPut _ _ _ _ (DBInv_begin _ _ hInv)
  | getO k =>
    exact DBInv_commit _ _ (DBInv_txGet _ _ _ (DBInv_begin _ _ hInv))
  | delO k =>
    exact DBInv_commit _ _ (DBInv_txDel _ _ _ (DBInv_begin _ _ hInv))
  | beginO iso => exact DBInv_begin _ _ hInv
  | txPutO t k v => exact DBInv_txPut _ _ _ _ hInv
  | txGetO t k => exact DBInv_txGet _ _ _ hInv
  | txDelO t k => exact DBInv_txDel _ _ _ hInv
  | commitO t => exact DBInv_commit _ _ hInv
  | rollbackO t => exact DBInv_rollback _ _ hInv
  | crashCommitO t => exact DBInv_crash _ _ hInv
  | ckptO => exact DBInv_checkpoint _ false hInv
  | ckptFailO => exact DBInv_checkpoint _ true hInv

theorem DBInv_init : DBInv initState := by
  refine ⟨fun k => rfl, ?_, ?_⟩
  · intro t tx htx _
    exact absurd htx (by simp [initState])
  · intro t _
    refine ⟨rfl, ?_⟩
    intro r hr
    exact absurd hr (by simp [postWal, initState, afterLastMarker])

theorem DBInv_run (ops : List DBOp) : DBInv (run ops) := by
  rw [run, runFrom]
  have hgen : ∀ (l : List DBOp) (s : DBState), DBInv s → DBInv (l.foldl step s) := by
    intro l
    induction l with
    | nil => intro s hs; exact hs
    | cons op l2 ih =>
      intro s hs
      rw [List.foldl_cons]
      exact ih (step s op) (DBInv_step s op hs)
  exact hgen ops initState DBInv_init

/-- Claim C2: for every run of the database — commits, rollbacks,
checkpoints (successful or I/O-failed), and crashes that left a
transaction's data records in the WAL without its commit record —
recovery from the persisted state (data file plus WAL) reproduces
exactly the committed store: every committed transaction's writes are
present and the writes of every transaction lacking a commit record
are absent. -/
theorem c2_recovery_reproduces_committed :
    ∀ (ops : List DBOp) (k : Key), recoverStore (run ops) k = (run ops).committed k :=
  fun ops k => (DBInv_run ops).1 k

/-- A crashed commit's writes are discarded by recovery: transaction
1's put of key [3] reached the WAL without a commit record, so
recovery leaves [3] absent, also after a later failed checkpoint. -/
theorem recovery_discards_uncommitted_example :
    recoverStore (run [DBOp.putO [1] [2], DBOp.beginO Iso.serializable,
      DBOp.txPutO 1 [3] [4], DBOp.crashCommitO 1, DBOp.ckptFailO]) [3] = none := by decide

/-- Committed writes survive recovery across a checkpoint: after put,
checkpoint, delete and another put, recovery reproduces the committed
values. -/
theorem recovery_keeps_committed_example :
    recoverStore (run [DBOp.putO [1] [2], DBOp.ckptO, DBOp.delO [1],
      DBOp.putO [5] [6]]) [5] = some [6] := by decide

end Lowkeydb
